import Mathlib

/-!
Verification development for the GCSF file manager
(`src/gcsf/file_manager.rs`).  The Rust code is embedded shallowly:
hash maps become association lists, the `id_tree::Tree` becomes an
arena keyed by natural-number node ids, the `DriveFacade` becomes a
record of scripted responses and recorded calls, and every operation
that can `unwrap()` a `None` returns through `PRes`, whose `panicked`
constructor marks a Rust panic.
-/

set_option autoImplicit false

namespace GCSF

abbrev Inode := Nat
abbrev FileHandle := Nat
abbrev DriveId := String
abbrev NId := Nat

/-- Reserved inode of the root directory. -/
def ROOT_INODE : Inode := 1
/-- Reserved inode of the Trash directory. -/
def TRASH_INODE : Inode := 2
/-- Reserved inode of the Shared-with-me directory. -/
def SHARED_INODE : Inode := 3
/-- Reserved inode of the Orphans directory. -/
def ORPHANS_INODE : Inode := 4

/-- Association-list lookup; stands in for `HashMap::get`. -/
def lookupA {α β : Type} [DecidableEq α] : List (α × β) → α → Option β
  | [], _ => none
  | (k, v) :: rest, a => if k = a then some v else lookupA rest a

/-- Association-list removal; stands in for `HashMap::remove`. -/
def eraseA {α β : Type} [DecidableEq α] (m : List (α × β)) (a : α) : List (α × β) :=
  m.filter (fun kv => decide (kv.1 ≠ a))

/-- Association-list insertion; stands in for `HashMap::insert`. -/
def insertA {α β : Type} [DecidableEq α] (m : List (α × β)) (a : α) (b : β) : List (α × β) :=
  (a, b) :: eraseA m a

/-- Key membership; stands in for `HashMap::contains_key`. -/
def containsA {α β : Type} [DecidableEq α] (m : List (α × β)) (a : α) : Bool :=
  (lookupA m a).isSome

/-- Result of a computation that may hit a Rust `unwrap()` on `None`:
`val` is a normal return, `panicked` is a process-aborting panic. -/
inductive PRes (α : Type) where
  | val (a : α)
  | panicked
  deriving Repr, DecidableEq

/-- Remote file descriptor (`drive3::File`) restricted to the fields the
file manager reads: id, name, parents, trashed flag and MIME type. -/
structure DriveFile where
  id : Option DriveId
  dname : Option String
  parents : Option (List DriveId)
  trashed : Option Bool
  mimeType : Option String
  deriving Repr, DecidableEq

/-- Modelled from the spec: the canonical extension table for cloud-native
documents (spreadsheets, documents, presentations; the spec leaves the
remaining kinds unenumerated). -/
def specialExtension : String → Option String
  | "application/vnd.google-apps.spreadsheet" => some "#.ods"
  | "application/vnd.google-apps.document" => some "#.odt"
  | "application/vnd.google-apps.presentation" => some "#.odp"
  | _ => none

/-- Local file entity.  The struct literal in `file_manager.rs` shows the
fields: display name, POSIX attribute block (only the inode is relevant
here), optional duplicate-suffix index, optional remote descriptor. -/
structure File where
  name : String
  ino : Inode
  identical_name_id : Option Nat
  drive_file : Option DriveFile
  deriving Repr, DecidableEq

/-- Modelled from the spec: `File::inode` reads the inode out of the
attribute block (`file.rs` is not under `src/`). -/
def File.inode (f : File) : Inode := f.ino

/-- Modelled from the spec: `File::drive_id` is the id of the attached
remote descriptor, when both exist. -/
def File.drive_id (f : File) : Option DriveId :=
  f.drive_file.bind (fun d => d.id)

/-- Modelled from the spec: `File::drive_parent` is the first entry of the
remote descriptor parents list (§9: change application uses the first
named parent). -/
def File.drive_parent (f : File) : Option DriveId :=
  (f.drive_file.bind (fun d => d.parents)).bind List.head?

/-- Modelled from the spec: `File::set_drive_id` stores the id returned by
the remote create call into the attached descriptor. -/
def File.set_drive_id (f : File) (d : DriveId) : File :=
  { f with drive_file := f.drive_file.map (fun d0 => { d0 with id := some d }) }

/-- Modelled from the spec: `File::is_trashed` reads the trashed flag of
the remote descriptor. -/
def File.is_trashed (f : File) : Bool :=
  (f.drive_file.bind (fun d => d.trashed)).getD false

/-- Modelled from the spec: `File::set_trashed` writes the trashed flag of
the remote descriptor, failing when the File has none. -/
def File.set_trashed (f : File) (b : Bool) : Except String File :=
  match f.drive_file with
  | none => .error "no drive file"
  | some d => .ok { f with drive_file := some { d with trashed := some b } }

/-- Modelled from the spec: `File::from_drive_file` builds a local File
from a remote descriptor: the display name comes from the descriptor
(with a canonical extension appended for cloud-native documents when the
feature is enabled), the duplicate-suffix index starts empty, and the
descriptor is attached. -/
def File.from_drive_file (inode : Inode) (d : DriveFile) (add_ext : Bool) : File :=
  let base := d.dname.getD ""
  let nm :=
    if add_ext then
      match d.mimeType.bind specialExtension with
      | some ext => base ++ ext
      | none => base
    else base
  { name := nm, ino := inode, identical_name_id := none, drive_file := some d }

/-- The four reference forms of `FileId`. -/
inductive FileId where
  | inode (i : Inode)
  | driveId (d : DriveId)
  | nodeId (n : NId)
  | parentAndName (parent : Inode) (name : String)
  deriving Repr, DecidableEq

/-! ## The `id_tree::Tree` embedding

An arena of nodes keyed by `NId`.  Node ids are allocated from a counter
and never reused, so a node id that survives in a manager map after its
node was removed simply fails to resolve. -/

/-- One arena slot: stored inode, parent link and ordered children. -/
structure TreeNode where
  data : Inode
  parent : Option NId
  children : List NId
  deriving Repr, DecidableEq

/-- The tree arena: valid nodes, optional root, allocation counter. -/
structure Tree where
  nodes : List (NId × TreeNode)
  root : Option NId
  nextId : NId
  deriving Repr, DecidableEq

def Tree.empty : Tree := ⟨[], none, 0⟩

/-- `tree.get(&n)`: `Ok` becomes `some`, an invalid id becomes `none`. -/
def Tree.get (t : Tree) (n : NId) : Option TreeNode := lookupA t.nodes n

/-- Parent link of a node, when the node is valid. -/
def Tree.parentOf (t : Tree) (n : NId) : Option NId :=
  (t.get n).bind (fun node => node.parent)

/-- Inodes stored in the (valid) children of a node, in order; models
`tree.children(&n)` mapping each child to `child.data()`. -/
def Tree.childrenData (t : Tree) (n : NId) : Option (List Inode) :=
  match t.get n with
  | none => none
  | some node => some (node.children.filterMap (fun c => (t.get c).map (fun cn => cn.data)))

/-- `tree.insert(Node::new(data), UnderNode(&parent))`: fails when the
parent id is invalid, otherwise appends a fresh node as last child. -/
def Tree.insertUnder (t : Tree) (data : Inode) (parent : NId) : Except String (NId × Tree) :=
  match lookupA t.nodes parent with
  | none => .error "NodeId does not exist"
  | some pn =>
    let nid := t.nextId
    let nodes := insertA t.nodes parent ({ pn with children := pn.children ++ [nid] })
    let nodes := insertA nodes nid { data := data, parent := some parent, children := [] }
    .ok (nid, { nodes := nodes, root := t.root, nextId := t.nextId + 1 })

/-- `tree.insert(Node::new(data), AsRoot)`: the fresh node becomes the
root; a previous root becomes its child. -/
def Tree.insertAsRoot (t : Tree) (data : Inode) : NId × Tree :=
  let nid := t.nextId
  match t.root with
  | none =>
    (nid, { nodes := insertA t.nodes nid ⟨data, none, []⟩,
            root := some nid, nextId := t.nextId + 1 })
  | some r =>
    let nodes :=
      match lookupA t.nodes r with
      | some rn => insertA t.nodes r ({ rn with parent := some nid })
      | none => t.nodes
    (nid, { nodes := insertA nodes nid ⟨data, none, [r]⟩,
            root := some nid, nextId := t.nextId + 1 })

/-- Rewrite the parent link of `n` (no change when `n` is invalid). -/
def Tree.setParent (t : Tree) (n : NId) (p : Option NId) : Tree :=
  match lookupA t.nodes n with
  | none => t
  | some nn => { t with nodes := insertA t.nodes n ({ nn with parent := p }) }

/-- Remove `n` from the children list of its parent (parent link of `n`
itself is left to the caller). -/
def Tree.detach (t : Tree) (n : NId) : Tree :=
  match lookupA t.nodes n with
  | none => t
  | some nn =>
    match nn.parent with
    | none => t
    | some p =>
      match lookupA t.nodes p with
      | none => t
      | some pn =>
        let pn' : TreeNode := { pn with children := pn.children.filter (fun c => decide (c ≠ n)) }
        { t with nodes := insertA t.nodes p pn' }

/-- Append `n` as the last child of `p` and point its parent link at `p`. -/
def Tree.attach (t : Tree) (n p : NId) : Tree :=
  let t1 :=
    match lookupA t.nodes p with
    | none => t
    | some pn => { t with nodes := insertA t.nodes p ({ pn with children := pn.children ++ [n] }) }
  t1.setParent n (some p)

/-- Walking up the parent chain from `n`, the child of `anc` on that
chain, when `anc` is a proper ancestor of `n` (the id_tree helper
`find_subtree_root_between_ids`). -/
def Tree.subtreeRootBetween (t : Tree) : Nat → NId → NId → Option NId
  | 0, _, _ => none
  | fuel + 1, n, anc =>
    match t.get n with
    | none => none
    | some node =>
      match node.parent with
      | none => none
      | some p => if p = anc then some n else t.subtreeRootBetween fuel p anc

/-- `tree.move_node(&n, ToParent(&p))`.  Per the id_tree semantics, when
`p` lies inside the subtree of `n`, the child of `n` on the path down to
`p` is first reattached to the old parent of `n` (or becomes the root
when `n` is the root); then `n` is detached and appended under `p`. -/
def Tree.move_node (t : Tree) (n p : NId) : Except String Tree :=
  match lookupA t.nodes n, lookupA t.nodes p with
  | some nn, some _ =>
    let t1 :=
      match t.subtreeRootBetween t.nodes.length p n with
      | none => t
      | some sr =>
        if t.root = some n then
          let t' := (t.detach sr).setParent sr none
          { t' with root := some sr }
        else
          match nn.parent with
          | none => t
          | some np => (t.detach sr).attach sr np
    .ok ((t1.detach n).attach n p)
  | _, _ => .error "NodeId does not exist"

/-- All node ids in the subtree rooted at `n`, fuelled by arena size. -/
def Tree.subtreeIds (t : Tree) : Nat → NId → List NId
  | 0, n => [n]
  | fuel + 1, n =>
    match t.get n with
    | none => [n]
    | some node => n :: (node.children.map (fun c => t.subtreeIds fuel c)).flatten

/-- `tree.remove_node(node_id, DropChildren)`: deletes the whole subtree
from the arena and unlinks it from the parent of `n`. -/
def Tree.remove_node (t : Tree) (n : NId) : Except String Tree :=
  match lookupA t.nodes n with
  | none => .error "NodeId does not exist"
  | some _ =>
    let ids := t.subtreeIds t.nodes.length n
    let t1 := t.detach n
    .ok { nodes := t1.nodes.filter (fun kv => decide (kv.1 ∉ ids)),
          root := if t.root = some n then none else t.root,
          nextId := t.nextId }

/-! ## The Drive facade

The facade is a black box (§4.2): it is embedded as scripted response
queues plus a record of the calls the manager issued, which is what the
claims observe (remote work performed, pending writes enqueued, ...). -/

/-- One entry of the change log returned by `get_all_changes`. -/
structure Change where
  file_id : Option DriveId
  file : Option DriveFile
  removed : Option Bool
  deriving Repr, DecidableEq

/-- Decidable equality for `Except`, needed to evaluate facade states. -/
instance instDecEqExcept {ε α : Type} [DecidableEq ε] [DecidableEq α] :
    DecidableEq (Except ε α) := fun a b =>
  match a, b with
  | .ok x, .ok y =>
    if h : x = y then .isTrue (by rw [h]) else .isFalse (by intro hc; cases hc; exact h rfl)
  | .error x, .error y =>
    if h : x = y then .isTrue (by rw [h]) else .isFalse (by intro hc; cases hc; exact h rfl)
  | .ok _, .error _ => .isFalse (by intro hc; cases hc)
  | .error _, .ok _ => .isFalse (by intro hc; cases hc)

/-- Scripted responses and recorded calls of the `DriveFacade`. -/
structure DriveFacade where
  rootIdResp : Option DriveId
  allFiles : List DriveFile
  changeResponses : List (Except String (List Change))
  changeCalls : Nat
  createResponses : List (Except String DriveId)
  created : List DriveFile
  deleteResponses : List (Except String String)
  deletedPermanently : List DriveId
  moveToResponses : List (Except String Unit)
  movedTo : List (DriveId × DriveId × String)
  trashResponses : List (Except String Unit)
  movedToTrash : List DriveId
  pendingWrites : List (DriveId × Nat × List Nat)
  deriving Repr, DecidableEq

/-- `df.get_all_changes()`: consumes the next scripted change response and
counts the remote request. -/
def DriveFacade.get_all_changes (df : DriveFacade) : Except String (List Change) × DriveFacade :=
  match df.changeResponses with
  | [] => (.error "no scripted change response",
           { df with changeCalls := df.changeCalls + 1 })
  | r :: rest => (r, { df with changeResponses := rest, changeCalls := df.changeCalls + 1 })

/-- `df.create(descriptor)`: records the call, consumes the next scripted
create response. -/
def DriveFacade.create (df : DriveFacade) (d : DriveFile) : Except String DriveId × DriveFacade :=
  let df := { df with created := df.created ++ [d] }
  match df.createResponses with
  | [] => (.error "no scripted create response", df)
  | r :: rest => (r, { df with createResponses := rest })

/-- `df.delete_permanently(id)`. -/
def DriveFacade.delete_permanently (df : DriveFacade) (d : DriveId) :
    Except String String × DriveFacade :=
  let df := { df with deletedPermanently := df.deletedPermanently ++ [d] }
  match df.deleteResponses with
  | [] => (.error "no scripted delete response", df)
  | r :: rest => (r, { df with deleteResponses := rest })

/-- `df.move_to(id, new_parent, new_name)`. -/
def DriveFacade.move_to (df : DriveFacade) (d p : DriveId) (nm : String) :
    Except String Unit × DriveFacade :=
  let df := { df with movedTo := df.movedTo ++ [(d, p, nm)] }
  match df.moveToResponses with
  | [] => (.error "no scripted move response", df)
  | r :: rest => (r, { df with moveToResponses := rest })

/-- `df.move_to_trash(id)`. -/
def DriveFacade.move_to_trash (df : DriveFacade) (d : DriveId) :
    Except String Unit × DriveFacade :=
  let df := { df with movedToTrash := df.movedToTrash ++ [d] }
  match df.trashResponses with
  | [] => (.error "no scripted trash response", df)
  | r :: rest => (r, { df with trashResponses := rest })

/-- `df.write(id, offset, data)`: enqueues a pending write. -/
def DriveFacade.writeOp (df : DriveFacade) (d : DriveId) (offset : Nat) (data : List Nat) :
    DriveFacade :=
  { df with pendingWrites := df.pendingWrites ++ [(d, offset, data)] }

/-! ## The file manager -/

/-- The `FileManager` state: tree, the three identifier maps, facade,
sync bookkeeping, the three feature flags and the allocation counters. -/
structure FileManager where
  tree : Tree
  files : List (Inode × File)
  node_ids : List (Inode × NId)
  drive_ids : List (DriveId × Inode)
  df : DriveFacade
  last_sync : Nat
  sync_interval : Nat
  rename_identical_files : Bool
  add_extensions_to_special_files : Bool
  skip_trash : Bool
  last_inode : Inode
  last_fh : FileHandle
  deriving Repr, DecidableEq

namespace FileManager

/-- Direct lookup in the inode-to-node-handle map. -/
def node_id_of_inode (fm : FileManager) (i : Inode) : Option NId :=
  lookupA fm.node_ids i

/-- Children of the node of inode `p` as Files; the body of
`get_children` specialised to an inode reference, which is exactly what
`get_inode` invokes for a parent-and-name reference.  The `unwrap()` on
`tree.children(..)` panics when the stored node handle is stale. -/
def children_files (fm : FileManager) (p : Inode) : PRes (Option (List File)) :=
  match fm.node_id_of_inode p with
  | none => .val none
  | some n =>
    match fm.tree.childrenData n with
    | none => .panicked
    | some ds => .val (some (ds.filterMap (fun i => lookupA fm.files i)))

/-- `FileManager::get_inode`. -/
def get_inode (fm : FileManager) : FileId → PRes (Option Inode)
  | .inode i => .val (some i)
  | .driveId d => .val (lookupA fm.drive_ids d)
  | .nodeId n => .val ((fm.tree.get n).map (fun node => node.data))
  | .parentAndName p nm =>
    match fm.children_files p with
    | .panicked => .panicked
    | .val none => .val none
    | .val (some kids) =>
      .val ((kids.find? (fun c => c.name == nm)).map (fun c => c.inode))

/-- `FileManager::get_node_id`.  For a remote-id reference the source
unwraps `get_inode(..)`, so an unknown remote id panics. -/
def get_node_id (fm : FileManager) : FileId → PRes (Option NId)
  | .inode i => .val (fm.node_id_of_inode i)
  | .driveId d =>
    match lookupA fm.drive_ids d with
    | none => .panicked
    | some i => .val (fm.node_id_of_inode i)
  | .nodeId n => .val (some n)
  | .parentAndName p nm =>
    match fm.get_inode (.parentAndName p nm) with
    | .panicked => .panicked
    | .val none => .val none
    | .val (some i) => .val (fm.node_id_of_inode i)

/-- `FileManager::get_children`. -/
def get_children (fm : FileManager) (id : FileId) : PRes (Option (List File)) :=
  match fm.get_node_id id with
  | .panicked => .panicked
  | .val none => .val none
  | .val (some n) =>
    match fm.tree.childrenData n with
    | none => .panicked
    | some ds => .val (some (ds.filterMap (fun i => lookupA fm.files i)))

/-- `FileManager::get_file`. -/
def get_file (fm : FileManager) (id : FileId) : PRes (Option File) :=
  match fm.get_inode id with
  | .panicked => .panicked
  | .val none => .val none
  | .val (some i) => .val (lookupA fm.files i)

/-- `FileManager::get_drive_id`. -/
def get_drive_id (fm : FileManager) (id : FileId) : PRes (Option DriveId) :=
  match fm.get_file id with
  | .panicked => .panicked
  | .val none => .val none
  | .val (some f) => .val f.drive_id

/-- `FileManager::contains`. -/
def contains (fm : FileManager) (id : FileId) : PRes Bool :=
  match id with
  | .inode i => .val (containsA fm.node_ids i)
  | .driveId d => .val (containsA fm.drive_ids d)
  | .nodeId n => .val (fm.tree.get n).isSome
  | .parentAndName p nm =>
    match fm.get_file (.parentAndName p nm) with
    | .panicked => .panicked
    | .val o => .val o.isSome

/-- `FileManager::get_sibling_count`: among the children of `parent`,
how many share the display name of the file behind `id`. -/
def get_sibling_count (fm : FileManager) (id parent : FileId) : PRes (Except String Nat) :=
  match fm.get_file id with
  | .panicked => .panicked
  | .val none => .val (.error "Cannot get_file")
  | .val (some file) =>
    match fm.get_children parent with
    | .panicked => .panicked
    | .val none => .val (.error "could not get file siblings")
    | .val (some kids) =>
      .val (.ok ((kids.filter (fun c => c.name == file.name)).length))

end FileManager

/-- Result of a mutating manager operation: either a panic, or an
`Ok`/`Err` outcome together with the manager state as mutated so far
(Rust mutates `self` in place, so an `Err` can leave partial changes). -/
abbrev OpResult := PRes (Except String Unit × FileManager)

namespace FileManager

/-- Insert a freshly placed file into the three identifier maps, in the
source order: node id, drive id (when the File carries one), file. -/
def registerFile (fm : FileManager) (tree : Tree) (node_id : NId) (file : File) :
    FileManager :=
  { fm with
    tree := tree
    node_ids := insertA fm.node_ids file.inode node_id
    drive_ids :=
      match file.drive_id with
      | some d => insertA fm.drive_ids d file.inode
      | none => fm.drive_ids
    files := insertA fm.files file.inode file }

/-- `FileManager::add_file_locally`.  With the duplicate-rename feature
enabled, the sibling count is taken before the file is inserted
anywhere; an error from `get_sibling_count` is discarded by
`unwrap_or_default()`, yielding a count of 0. -/
def add_file_locally (fm : FileManager) (file : File) (parent : Option FileId) : OpResult :=
  match parent with
  | some id =>
    match fm.get_node_id id with
    | .panicked => .panicked
    | .val none =>
      .val (.error "FileManager::add_file_locally() could not find parent", fm)
    | .val (some parent_id) =>
      let renamed : PRes File :=
        if fm.rename_identical_files then
          match fm.get_sibling_count (.inode file.inode) id with
          | .panicked => .panicked
          | .val r =>
            let count := match r with | .ok c => c | .error _ => 0
            if count > 1 then .val { file with identical_name_id := some count }
            else .val { file with identical_name_id := none }
        else .val file
      match renamed with
      | .panicked => .panicked
      | .val file =>
        match fm.tree.insertUnder file.inode parent_id with
        | .error e => .val (.error e, fm)
        | .ok (node_id, tree) => .val (.ok (), fm.registerFile tree node_id file)
  | none =>
    let (node_id, tree) := fm.tree.insertAsRoot file.inode
    .val (.ok (), fm.registerFile tree node_id file)

/-- `FileManager::move_locally`: tree move first, then (feature on) the
duplicate-suffix index of the moved file is recomputed against the new
sibling set, which already includes the file itself. -/
def move_locally (fm : FileManager) (id new_parent : FileId) : OpResult :=
  match fm.get_node_id id with
  | .panicked => .panicked
  | .val none => .val (.error "Cannot find node_id", fm)
  | .val (some current_node) =>
    match fm.get_node_id new_parent with
    | .panicked => .panicked
    | .val none => .val (.error "Target node does not exist", fm)
    | .val (some target_node) =>
      match fm.tree.move_node current_node target_node with
      | .error e => .val (.error e, fm)
      | .ok tree =>
        let fm := { fm with tree := tree }
        if fm.rename_identical_files then
          match fm.get_sibling_count id new_parent with
          | .panicked => .panicked
          | .val (.error e) => .val (.error e, fm)
          | .val (.ok count) =>
            match fm.get_file id with
            | .panicked => .panicked
            | .val none => .val (.error "Cannot find file", fm)
            | .val (some file) =>
              let file :=
                if count > 1 then { file with identical_name_id := some count }
                else { file with identical_name_id := none }
              .val (.ok (), { fm with files := insertA fm.files file.inode file })
        else .val (.ok (), fm)

/-- `FileManager::delete_locally`: removes the subtree of `id` from the
tree, then removes the inode, node-id and drive-id entries of `id`
itself (and only of `id`) from the three maps. -/
def delete_locally (fm : FileManager) (id : FileId) : OpResult :=
  match fm.get_node_id id with
  | .panicked => .panicked
  | .val none => .val (.error "Cannot find node_id", fm)
  | .val (some node_id) =>
    match fm.get_inode id with
    | .panicked => .panicked
    | .val none => .val (.error "Cannot find inode", fm)
    | .val (some inode) =>
      match fm.get_drive_id id with
      | .panicked => .panicked
      | .val none => .val (.error "Cannot find drive id", fm)
      | .val (some drive_id) =>
        match fm.tree.remove_node node_id with
        | .error e => .val (.error e, fm)
        | .ok tree =>
          .val (.ok (), { fm with
            tree := tree
            files := eraseA fm.files inode
            node_ids := eraseA fm.node_ids inode
            drive_ids := eraseA fm.drive_ids drive_id })

/-- `FileManager::delete`: local removal first, then the permanent
remote delete; a remote failure is surfaced but the local removal is
already done. -/
def delete (fm : FileManager) (id : FileId) : OpResult :=
  match fm.get_drive_id id with
  | .panicked => .panicked
  | .val none => .val (.error "No such file", fm)
  | .val (some drive_id) =>
    match fm.delete_locally id with
    | .panicked => .panicked
    | .val (.error e, fm) => .val (.error e, fm)
    | .val (.ok _, fm) =>
      let (r, df) := fm.df.delete_permanently drive_id
      let fm := { fm with df := df }
      match r with
      | .ok _ => .val (.ok (), fm)
      | .error e => .val (.error e, fm)

/-- `FileManager::move_file_to_trash`. -/
def move_file_to_trash (fm : FileManager) (id : FileId) (also_on_drive : Bool) : OpResult :=
  match fm.get_node_id id with
  | .panicked => .panicked
  | .val none => .val (.error "Cannot find node_id", fm)
  | .val (some node_id) =>
    match fm.get_drive_id id with
    | .panicked => .panicked
    | .val none => .val (.error "Cannot find drive_id", fm)
    | .val (some drive_id) =>
      match fm.get_node_id (.inode TRASH_INODE) with
      | .panicked => .panicked
      | .val none => .val (.error "Cannot find node_id of Trash dir", fm)
      | .val (some trash_id) =>
        match fm.tree.move_node node_id trash_id with
        | .error e => .val (.error e, fm)
        | .ok tree =>
          let fm := { fm with tree := tree }
          if also_on_drive then
            match fm.get_file (.driveId drive_id) with
            | .panicked => .panicked
            | .val none => .val (.error "Cannot find file of drive id", fm)
            | .val (some file) =>
              match file.set_trashed true with
              | .error e => .val (.error e, fm)
              | .ok file' =>
                let fm := { fm with files := insertA fm.files file'.inode file' }
                let (r, df) := fm.df.move_to_trash drive_id
                let fm := { fm with df := df }
                match r with
                | .error e => .val (.error e, fm)
                | .ok _ => .val (.ok (), fm)
          else .val (.ok (), fm)

/-- `FileManager::rename`: resolve to an inode, move the node, then
(feature on only) rewrite the display name and duplicate-suffix index,
then issue the remote move. -/
def rename (fm : FileManager) (id0 : FileId) (new_parent : Inode) (new_name : String) :
    OpResult :=
  match fm.get_inode id0 with
  | .panicked => .panicked
  | .val none => .val (.error "Cannot find node_id", fm)
  | .val (some ino) =>
    let id := FileId.inode ino
    match fm.get_node_id id with
    | .panicked => .panicked
    | .val none => .val (.error "Cannot find node_id", fm)
    | .val (some current_node) =>
      match fm.get_node_id (.inode new_parent) with
      | .panicked => .panicked
      | .val none => .val (.error "Target node does not exist", fm)
      | .val (some target_node) =>
        match fm.tree.move_node current_node target_node with
        | .error e => .val (.error e, fm)
        | .ok tree =>
          let fm := { fm with tree := tree }
          let step : OpResult :=
            if fm.rename_identical_files then
              match fm.get_sibling_count id (.inode new_parent) with
              | .panicked => .panicked
              | .val (.error e) => .val (.error e, fm)
              | .val (.ok count) =>
                match fm.get_file id with
                | .panicked => .panicked
                | .val none => .val (.error "File does not exist", fm)
                | .val (some file) =>
                  let file := { file with name := new_name }
                  let file :=
                    if count > 0 then { file with identical_name_id := some count }
                    else { file with identical_name_id := none }
                  .val (.ok (), { fm with files := insertA fm.files file.inode file })
            else .val (.ok (), fm)
          match step with
          | .panicked => .panicked
          | .val (.error e, fm) => .val (.error e, fm)
          | .val (.ok _, fm) =>
            match fm.get_drive_id id with
            | .panicked => .panicked
            | .val none => .val (.error "Cannot find drive_id", fm)
            | .val (some drive_id) =>
              match fm.get_drive_id (.inode new_parent) with
              | .panicked => .panicked
              | .val none => .val (.error "Cannot find drive_id of parent", fm)
              | .val (some parent_id) =>
                let (r, df) := fm.df.move_to drive_id parent_id new_name
                let fm := { fm with df := df }
                match r with
                | .error e => .val (.error e, fm)
                | .ok _ => .val (.ok (), fm)

/-- `FileManager::write`: the remote id resolution is unwrapped, so an
unresolvable reference panics; otherwise the pending write is enqueued
on the facade. -/
def write (fm : FileManager) (id : FileId) (offset : Nat) (data : List Nat) :
    PRes FileManager :=
  match fm.get_drive_id id with
  | .panicked => .panicked
  | .val none => .panicked
  | .val (some drive_id) => .val { fm with df := fm.df.writeOp drive_id offset data }

/-- `FileManager::flush`. -/
def flush (fm : FileManager) (id : FileId) : OpResult :=
  match fm.get_drive_id id with
  | .panicked => .panicked
  | .val none => .val (.error "Cannot find drive id", fm)
  | .val (some _) => .val (.ok (), fm)

/-- `FileManager::create_file`: the descriptor is unwrapped (panic when
absent), the remote create is issued first, and only on a remote id
coming back is the file registered locally. -/
def create_file (fm : FileManager) (file : File) (parent : Option FileId) : OpResult :=
  match file.drive_file with
  | none => .panicked
  | some d0 =>
    let (r, df) := fm.df.create d0
    let fm := { fm with df := df }
    match r with
    | .error e => .val (.error e, fm)
    | .ok drive_id => fm.add_file_locally (file.set_drive_id drive_id) parent

/-- `FileManager::next_available_inode`. -/
def next_available_inode (fm : FileManager) : Inode × FileManager :=
  (fm.last_inode + 1, { fm with last_inode := fm.last_inode + 1 })

/-- The new-file stage of the `sync` loop body: an unknown remote id is
created locally from the descriptor and added under the parent the
descriptor names; a missing parent name panics, and an error from
`add_file_locally` is propagated by `?`. -/
def processChangeNew (fm : FileManager) (fid : DriveId) (drive_f : DriveFile) : OpResult :=
  match fm.contains (.driveId fid) with
  | .panicked => .panicked
  | .val true => .val (.ok (), fm)
  | .val false =>
    let p := fm.next_available_inode
    let fm := p.2
    let f := File.from_drive_file p.1 drive_f fm.add_extensions_to_special_files
    match f.drive_parent with
    | none => .panicked
    | some parent => fm.add_file_locally f (some (.driveId parent))

/-- The application stage of the `sync` loop body: trashing, removal or
reparenting, in the source order; errors from these steps are logged
and the loop continues. -/
def processChangeApply (fm : FileManager) (fid : DriveId) (drive_f : DriveFile)
    (change : Change) : OpResult :=
  if drive_f.trashed = some true then
    match fm.move_file_to_trash (.driveId fid) false with
    | .panicked => .panicked
    | .val (_, fm) => .val (.ok (), fm)
  else if change.removed = some true then
    match fm.delete_locally (.driveId fid) with
    | .panicked => .panicked
    | .val (_, fm) => .val (.ok (), fm)
  else
    match fm.get_file (.driveId fid) with
    | .panicked => .panicked
    | .val none => .val (.ok (), fm)
    | .val (some f) =>
      let newf := File.from_drive_file f.inode drive_f fm.add_extensions_to_special_files
      let fm := { fm with files := insertA fm.files f.inode newf }
      match newf.drive_parent with
      | none => .panicked
      | some p =>
        match fm.move_locally (.driveId fid) (.driveId p) with
        | .panicked => .panicked
        | .val (_, fm) => .val (.ok (), fm)

/-- The body of the `sync` loop for one change (already past the
`change.file.is_some()` filter).  A missing `file_id` panics
(`change.file_id.unwrap()`); the new-file stage runs first and aborts
the loop on error; then the change is applied. -/
def processChange (fm : FileManager) (change : Change) : OpResult :=
  match change.file with
  | none => .val (.ok (), fm)
  | some drive_f =>
    match change.file_id with
    | none => .panicked
    | some fid =>
      match fm.processChangeNew fid drive_f with
      | .panicked => .panicked
      | .val (.error e, fm) => .val (.error e, fm)
      | .val (.ok _, fm) => fm.processChangeApply fid drive_f change

/-- The `sync` loop over the filtered change list. -/
def processChanges : FileManager → List Change → OpResult
  | fm, [] => .val (.ok (), fm)
  | fm, c :: rest =>
    match fm.processChange c with
    | .panicked => .panicked
    | .val (.error e, fm) => .val (.error e, fm)
    | .val (.ok _, fm) => fm.processChanges rest

/-- `FileManager::sync` at wall-clock instant `now`.  The
`duration_since(..).unwrap()` panics when `now` is before `last_sync`;
the interval gate declines with an error; otherwise `last_sync` is
advanced to `now` before the facade is asked for changes. -/
def sync (fm : FileManager) (now : Nat) : OpResult :=
  if now < fm.last_sync then .panicked
  else if now - fm.last_sync < fm.sync_interval then
    .val (.error "Not enough time has passed since last sync. Will do nothing.", fm)
  else
    let fm := { fm with last_sync := now }
    let (r, df) := fm.df.get_all_changes
    let fm := { fm with df := df }
    match r with
    | .error e => .val (.error e, fm)
    | .ok changes => fm.processChanges (changes.filter (fun c => c.file.isSome))

/-- `FileManager::new_root_file`: the root File, carrying the remote
root id when the facade knows it and the placeholder `"root"`
otherwise. -/
def new_root_file (fm : FileManager) : File :=
  let fallback : DriveId := "root"
  let root_id := fm.df.rootIdResp.getD fallback
  { name := ".", ino := ROOT_INODE, identical_name_id := none,
    drive_file := some { id := some root_id, dname := none, parents := none,
                         trashed := none, mimeType := none } }

/-- `FileManager::new_special_dir` (both call sites pass a preferred
inode, so the fresh-inode fallback is elided). -/
def new_special_dir (name : String) (preferred_inode : Inode) : File :=
  { name := name, ino := preferred_inode, identical_name_id := none, drive_file := none }

/-- `FileManager::create_special_dirs`: root as tree root, then Shared
and Orphans under it. -/
def create_special_dirs (fm : FileManager) : OpResult :=
  match fm.add_file_locally fm.new_root_file none with
  | .panicked => .panicked
  | .val (.error e, fm) => .val (.error e, fm)
  | .val (.ok _, fm) =>
    match fm.add_file_locally (new_special_dir "Shared with me" SHARED_INODE)
        (some (.inode ROOT_INODE)) with
    | .panicked => .panicked
    | .val (.error e, fm) => .val (.error e, fm)
    | .val (.ok _, fm) =>
      match fm.add_file_locally (new_special_dir "Orphans" ORPHANS_INODE)
          (some (.inode ROOT_INODE)) with
      | .panicked => .panicked
      | .val (.error e, fm) => .val (.error e, fm)
      | .val (.ok _, fm) => .val (.ok (), fm)

/-- Fresh-inode assignment for a fetched listing, in listing order. -/
def assignInodes (add_ext : Bool) : Inode → List DriveFile → List File × Inode
  | last, [] => ([], last)
  | last, d :: rest =>
    let f := File.from_drive_file (last + 1) d add_ext
    let (fs, last') := assignInodes add_ext (last + 1) rest
    (f :: fs, last')

/-- The add loop of `populate`: every fetched file goes under Orphans
first; an error aborts via `?`. -/
def addAllUnderOrphans : FileManager → List File → OpResult
  | fm, [] => .val (.ok (), fm)
  | fm, f :: rest =>
    match fm.add_file_locally f (some (.inode ORPHANS_INODE)) with
    | .panicked => .panicked
    | .val (.error e, fm) => .val (.error e, fm)
    | .val (.ok _, fm) => fm.addAllUnderOrphans rest

/-- The projection pass of `populate`: the move list computed against
the complete map. -/
def projectionMoves (fm : FileManager) : List (FileId × FileId) :=
  fm.files.filterMap (fun kv =>
    match kv.2.drive_parent with
    | none => none
    | some p =>
      if containsA fm.drive_ids p then some (FileId.inode kv.1, FileId.driveId p)
      else none)

/-- The move loop of `populate`: every move is applied, errors are only
logged. -/
def applyMoves : FileManager → List (FileId × FileId) → PRes FileManager
  | fm, [] => .val fm
  | fm, (id, parent) :: rest =>
    match fm.move_locally id parent with
    | .panicked => .panicked
    | .val (_, fm) => fm.applyMoves rest

/-- `FileManager::populate`: special dirs, bulk add under Orphans, then
the single projection pass. -/
def populate (fm : FileManager) : OpResult :=
  match fm.create_special_dirs with
  | .panicked => .panicked
  | .val (.error e, fm) => .val (.error e, fm)
  | .val (.ok _, fm) =>
    let (fs, last') := assignInodes fm.add_extensions_to_special_files fm.last_inode fm.df.allFiles
    let fm := { fm with last_inode := last' }
    match fm.addAllUnderOrphans fs with
    | .panicked => .panicked
    | .val (.error e, fm) => .val (.error e, fm)
    | .val (.ok _, fm) =>
      match fm.applyMoves fm.projectionMoves with
      | .panicked => .panicked
      | .val fm => .val (.ok (), fm)

end FileManager

/-- First entry of the parents list of a descriptor (what
`drive_parent` reads on a File built from it). -/
def DriveFile.firstParent (d : DriveFile) : Option DriveId :=
  d.parents.bind List.head?

/-- Every stored node handle points at a live tree node (no stale
handles); holds in every state the manager reaches before a delete. -/
def FileManager.handlesLive (fm : FileManager) : Bool :=
  fm.node_ids.all (fun kv => (fm.tree.get kv.2).isSome)

/-! ## Projection-pass vocabulary (claim C7)

The add phase of `populate` is deterministic: the root, Shared and
Orphans directories get tree nodes 0, 1 and 2, and the j-th fetched
descriptor gets inode `5 + j` and tree node `3 + j`.  `projTarget`
names the node the projection pass must leave the j-th file under:
the node of the owner of its first named parent when that remote id is
locally known, the Orphans node (2) otherwise. -/

/-- Placeholder descriptor for out-of-range list reads. -/
def dfltDrive : DriveFile :=
  { id := none, dname := none, parents := none, trashed := none, mimeType := none }

/-- Remote id of the j-th fetched descriptor. -/
def did (ds : List DriveFile) (j : Nat) : DriveId :=
  ((ds.getD j dfltDrive).id).getD ""

/-- The files created by `create_special_dirs`, newest first as the
insertions leave them. -/
def specialFiles (rootId : DriveId) : List (Inode × File) :=
  [(ORPHANS_INODE, FileManager.new_special_dir "Orphans" ORPHANS_INODE),
   (SHARED_INODE, FileManager.new_special_dir "Shared with me" SHARED_INODE),
   (ROOT_INODE,
     { name := ".", ino := ROOT_INODE, identical_name_id := none,
       drive_file := some { id := some rootId, dname := none, parents := none,
                            trashed := none, mimeType := none } })]

/-- The fetched part of the files map after `k` adds, newest first. -/
def revFetched (ds : List DriveFile) (flag : Bool) : Nat → List (Inode × File)
  | 0 => []
  | k + 1 =>
    (5 + k, File.from_drive_file (5 + k) (ds.getD k dfltDrive) flag) :: revFetched ds flag k

/-- Data and parent link of an arena slot (children elided). -/
def nodeShape (t : Tree) (m : NId) : Option (Inode × Option NId) :=
  (t.get m).map (fun nd => (nd.data, nd.parent))

/-- Whether a remote id is locally known after the add phase. -/
def knownParent (ds : List DriveFile) (rootId : DriveId) (n : Nat) (p : DriveId) : Bool :=
  p == rootId || (List.range n).any (fun i => did ds i == p)

/-- The tree node of the local owner of remote id `p`. -/
def targetNodeOf (ds : List DriveFile) (rootId : DriveId) (n : Nat) (p : DriveId) : NId :=
  if p = rootId then 0
  else
    match (List.range n).find? (fun i => did ds i == p) with
    | some i => 3 + i
    | none => 2

/-- The parent node the claim requires for the j-th fetched file. -/
def projTarget (ds : List DriveFile) (rootId : DriveId) (n j : Nat) : NId :=
  match (ds.getD j dfltDrive).firstParent with
  | none => 2
  | some p => if knownParent ds rootId n p then targetNodeOf ds rootId n p else 2

/-- The projection move list, as the filter over the files map
produces it (newest fetched file first). -/
def movesSpec (ds : List DriveFile) (rootId : DriveId) (n : Nat) :
    List (FileId × FileId) :=
  (List.range n).reverse.filterMap (fun j =>
    match (ds.getD j dfltDrive).firstParent with
    | none => none
    | some p =>
      if knownParent ds rootId n p then some (FileId.inode (5 + j), FileId.driveId p)
      else none)

/-- The per-entry function of the projection filter, over a drive-id
map. -/
def projFn (dids : List (DriveId × Inode)) (kv : Inode × File) :
    Option (FileId × FileId) :=
  match kv.2.drive_parent with
  | none => none
  | some p =>
    if containsA dids p then some (FileId.inode kv.1, FileId.driveId p) else none

/-- The per-index function of `movesSpec`. -/
def specMoveFn (ds : List DriveFile) (rootId : DriveId) (n : Nat) (j : Nat) :
    Option (FileId × FileId) :=
  match (ds.getD j dfltDrive).firstParent with
  | none => none
  | some p =>
    if knownParent ds rootId n p then
      some (FileId.inode (5 + j), FileId.driveId p)
    else none

/-- Arena contents after `detach`: the old parent drops the detached
child. -/
def detachedNodes (t : Tree) (nj q : NId) (qn : TreeNode) : List (NId × TreeNode) :=
  insertA t.nodes q ({ qn with children := qn.children.filter (fun c => decide (c ≠ nj)) })

/-- Arena contents after a plain `move_node`: detach from the old
parent, append under the target, rewrite the parent link. -/
def movedNodes (t : Tree) (nj tgt q : NId) (d : Inode) (ch : List NId)
    (qn tn : TreeNode) : List (NId × TreeNode) :=
  insertA (insertA (detachedNodes t nj q qn) tgt
    ({ tn with children := tn.children ++ [nj] })) nj ⟨d, some tgt, ch⟩

/-- Recorded parent node of the `m`-th fetched node once the moves for
indices `k` and above have been applied (the move list runs newest
first, so indices below `k` still hang under Orphans). -/
def pmt (ds : List DriveFile) (rootId : DriveId) (n k m : Nat) : NId :=
  if k ≤ m then projTarget ds rootId n m else 2

/-- The listing is acyclic: some rank strictly drops from a file to the
owner of its recorded parent id. -/
def RankOk (ds : List DriveFile) (n : Nat) (rank : Nat → Nat) : Prop :=
  ∀ j i, j < n → i < n →
    (ds.getD j dfltDrive).firstParent = some (did ds i) → rank i < rank j

/-- State through the move phase of `populate`: moves for indices `k`
and above are done, indices below `k` are still pending. -/
structure MoveInv (ds : List DriveFile) (rootId : DriveId) (flag : Bool)
    (n k : Nat) (T : FileManager) : Prop where
  files_eq : T.files = revFetched ds flag n ++ specialFiles rootId
  nid_root : lookupA T.node_ids ROOT_INODE = some 0
  nid_fetched : ∀ j, j < n → lookupA T.node_ids (5 + j) = some (3 + j)
  did_root : lookupA T.drive_ids rootId = some 1
  did_fetched : ∀ j, j < n → lookupA T.drive_ids (did ds j) = some (5 + j)
  tree_root : T.tree.root = some 0
  s0 : ∃ ch, T.tree.get 0 = some ⟨ROOT_INODE, none, ch⟩
  s1 : ∃ ch, T.tree.get 1 = some ⟨SHARED_INODE, some 0, ch⟩
  s2 : ∃ ch, T.tree.get 2 = some ⟨ORPHANS_INODE, some 0, ch⟩
  sj : ∀ m, m < n → ∃ ch, T.tree.get (3 + m)
      = some ⟨5 + m, some (pmt ds rootId n k m), ch⟩

/-- State of the manager after `create_special_dirs` and the first `k`
bulk adds of `populate`: the maps and the tree skeleton, characterised
at the lookup level (children lists are existential). -/
structure AddInv (ds : List DriveFile) (rootId : DriveId) (flag : Bool) (k : Nat)
    (S : FileManager) : Prop where
  files_eq : S.files = revFetched ds flag k ++ specialFiles rootId
  nid_root : lookupA S.node_ids ROOT_INODE = some 0
  nid_shared : lookupA S.node_ids SHARED_INODE = some 1
  nid_orph : lookupA S.node_ids ORPHANS_INODE = some 2
  nid_fetched : ∀ j, j < k → lookupA S.node_ids (5 + j) = some (3 + j)
  nid_fresh : ∀ j, k ≤ j → lookupA S.node_ids (5 + j) = none
  did_root : lookupA S.drive_ids rootId = some 1
  did_fetched : ∀ j, j < k → lookupA S.drive_ids (did ds j) = some (5 + j)
  did_none : ∀ p, p ≠ rootId → (∀ j, j < k → did ds j ≠ p) → lookupA S.drive_ids p = none
  tree_root : S.tree.root = some 0
  tree_next : S.tree.nextId = 3 + k
  t0 : ∃ ch, S.tree.get 0 = some ⟨ROOT_INODE, none, ch⟩
  t1 : ∃ ch, S.tree.get 1 = some ⟨SHARED_INODE, some 0, ch⟩
  t2 : ∃ ch, S.tree.get 2 = some ⟨ORPHANS_INODE, some 0, ch⟩
  tj : ∀ j, j < k → ∃ ch, S.tree.get (3 + j) = some ⟨5 + j, some 2, ch⟩

/-- The manager state `with_drive_facade` hands to `populate`: empty
tree and maps, allocation counters at their initial values. -/
def fmInit (df : DriveFacade) (ri ext st : Bool) (si ls : Nat) : FileManager :=
  { tree := Tree.empty, files := [], node_ids := [], drive_ids := [], df := df,
    last_sync := ls, sync_interval := si, rename_identical_files := ri,
    add_extensions_to_special_files := ext, skip_trash := st,
    last_inode := 4, last_fh := 3 }

/-- The state `create_special_dirs` computes from `fmInit`. -/
def fmSpecial (df : DriveFacade) (ri ext st : Bool) (si ls : Nat) : FileManager :=
  { tree := { nodes := [(2, ⟨ORPHANS_INODE, some 0, []⟩),
                        (0, ⟨ROOT_INODE, none, [1, 2]⟩),
                        (1, ⟨SHARED_INODE, some 0, []⟩)],
              root := some 0, nextId := 3 },
    files := specialFiles (df.rootIdResp.getD "root"),
    node_ids := [(ORPHANS_INODE, 2), (SHARED_INODE, 1), (ROOT_INODE, 0)],
    drive_ids := [(df.rootIdResp.getD "root", 1)],
    df := df, last_sync := ls, sync_interval := si, rename_identical_files := ri,
    add_extensions_to_special_files := ext, skip_trash := st,
    last_inode := 4, last_fh := 3 }

/-! ## Concrete fixtures -/

/-- A facade with no scripted responses. -/
def df0 : DriveFacade :=
  { rootIdResp := some "rootid", allFiles := [], changeResponses := [], changeCalls := 0,
    createResponses := [], created := [], deleteResponses := [], deletedPermanently := [],
    moveToResponses := [], movedTo := [], trashResponses := [], movedToTrash := [],
    pendingWrites := [] }

/-- Facade for the projection scenario: a file under the root, a file
under that one, and a file naming an unknown parent id. -/
def dfC7 : DriveFacade :=
  { rootIdResp := some "root0",
    allFiles := [
      { id := some "a", dname := some "A", parents := none,
        trashed := none, mimeType := none },
      { id := some "b", dname := some "B", parents := some ["a"],
        trashed := none, mimeType := none },
      { id := some "c", dname := some "C", parents := some ["zzz"],
        trashed := none, mimeType := none }],
    changeResponses := [], changeCalls := 0, createResponses := [], created := [],
    deleteResponses := [], deletedPermanently := [], moveToResponses := [], movedTo := [],
    trashResponses := [], movedToTrash := [], pendingWrites := [] }

/-- A manager as `with_drive_facade` initialises the fields, before
`populate`. -/
def fmEmpty : FileManager :=
  { tree := Tree.empty, files := [], node_ids := [], drive_ids := [], df := df0,
    last_sync := 0, sync_interval := 10, rename_identical_files := false,
    add_extensions_to_special_files := false, skip_trash := false,
    last_inode := 4, last_fh := 3 }

/-- Extracts the state of a successful operation (fixture plumbing). -/
def okState (r : OpResult) (fallback : FileManager) : FileManager :=
  match r with
  | .val (.ok _, fm) => fm
  | _ => fallback

/-- Manager holding only the three special directories. -/
def fmBase : FileManager := okState fmEmpty.create_special_dirs fmEmpty

/-- A plain file with remote id `x` under the remote root. -/
def fileX : File :=
  { name := "x.txt", ino := 5, identical_name_id := none,
    drive_file := some { id := some "x", dname := some "x.txt", parents := some ["rootid"],
                         trashed := none, mimeType := none } }

/-- A plain file with remote id `d`, stored under `fileX`. -/
def fileD : File :=
  { name := "d.txt", ino := 6, identical_name_id := none,
    drive_file := some { id := some "d", dname := some "d.txt", parents := some ["x"],
                         trashed := none, mimeType := none } }

/-- Fixture for the delete claim: root → X(5) → D(6), with one scripted
successful remote delete. -/
def fmC1 : FileManager :=
  let fm := okState (fmBase.add_file_locally fileX (some (.inode ROOT_INODE))) fmBase
  let fm := okState (fm.add_file_locally fileD (some (.inode 5))) fm
  { fm with df := { fm.df with deleteResponses := [.ok "deleted"] } }

def fmC1post : FileManager := okState (fmC1.delete (.inode 5)) fmC1

/-- A change reporting a new remote file whose named parent is unknown. -/
def changeBad : Change :=
  { file_id := some "n1",
    file := some { id := some "n1", dname := some "bad.txt", parents := some ["zzz"],
                   trashed := none, mimeType := none },
    removed := none }

/-- A change reporting a new remote file under the known remote root. -/
def changeGood : Change :=
  { file_id := some "n2",
    file := some { id := some "n2", dname := some "good.txt", parents := some ["rootid"],
                   trashed := none, mimeType := none },
    removed := none }

/-- Fixture for the sync-loop claim: the facade reports the bad change
first, then the good one. -/
def fmC2 : FileManager :=
  { fmBase with df := { fmBase.df with changeResponses := [.ok [changeBad, changeGood]] } }

def fmC2good : FileManager :=
  { fmBase with df := { fmBase.df with changeResponses := [.ok [changeGood]] } }

/-- Base manager with the duplicate-rename feature enabled. -/
def fmDupBase : FileManager :=
  let fm0 : FileManager := { fmEmpty with rename_identical_files := true }
  okState fm0.create_special_dirs fm0

def fileA1 : File :=
  { name := "a.txt", ino := 10, identical_name_id := none,
    drive_file := some { id := some "a1", dname := some "a.txt", parents := some ["rootid"],
                         trashed := none, mimeType := none } }

def fileA2 : File :=
  { name := "a.txt", ino := 11, identical_name_id := none,
    drive_file := some { id := some "a2", dname := some "a.txt", parents := some ["rootid"],
                         trashed := none, mimeType := none } }

/-- Fixture for the duplicate-suffix claim: two same-named files added
under the root with the feature enabled. -/
def fmC3 : FileManager :=
  let fm := okState (fmDupBase.add_file_locally fileA1 (some (.inode ROOT_INODE))) fmDupBase
  okState (fm.add_file_locally fileA2 (some (.inode ROOT_INODE))) fm

/-- Intermediate state of the duplicate-suffix fixture: only the first
`a.txt` added. -/
def fmC3mid : FileManager :=
  okState (fmDupBase.add_file_locally fileA1 (some (.inode ROOT_INODE))) fmDupBase

/-- Fixture for the rename claim: X(5) under root, feature disabled, one
scripted successful remote move. -/
def fmC4 : FileManager :=
  let fm := okState (fmBase.add_file_locally fileX (some (.inode ROOT_INODE))) fmBase
  { fm with df := { fm.df with moveToResponses := [.ok ()] } }

def fmC4post : FileManager := okState (fmC4.rename (.inode 5) ROOT_INODE "new.txt") fmC4

/-- A new local file handed to `create_file`, with a descriptor but no
remote id yet. -/
def fileF : File :=
  { name := "f.txt", ino := 20, identical_name_id := none,
    drive_file := some { id := none, dname := some "f.txt", parents := some ["rootid"],
                         trashed := none, mimeType := none } }

/-- Fixture for the create claim: the facade accepts the create, but the
parent reference does not resolve. -/
def fmC6 : FileManager :=
  { fmBase with df := { fmBase.df with createResponses := [.ok "newid"] } }

/-- Extracts the state after any non-panicking operation. -/
def anyState (r : OpResult) (fallback : FileManager) : FileManager :=
  match r with
  | .val (_, fm) => fm
  | .panicked => fallback

def fmC6post : FileManager := anyState (fmC6.create_file fileF (some (.inode 99))) fmC6

/-- Fixture for the interval-gate claim: one scripted empty change
response. -/
def fmSync : FileManager :=
  { fmBase with df := { fmBase.df with changeResponses := [.ok []] } }

def fmSyncPost : FileManager := anyState (fmSync.sync 100) fmSync

/-- Fixture for the failed-sync claim: one scripted facade error. -/
def fmSyncErr : FileManager :=
  { fmBase with df := { fmBase.df with changeResponses := [.error "network down"] } }

/-- A change reporting that X (remote id `x`) was trashed. -/
def changeTrashX : Change :=
  { file_id := some "x",
    file := some { id := some "x", dname := some "x.txt", parents := some ["rootid"],
                   trashed := some true, mimeType := none },
    removed := none }

/-- State after the sync that carries only the well-formed change. -/
def fmC2goodPost : FileManager := okState (fmC2good.sync 100) fmC2good

/-- The facade state after `create(d0)` consumed one scripted response. -/
def dfAfterCreate (df : DriveFacade) (d0 : DriveFile) (rest : List (Except String DriveId)) :
    DriveFacade :=
  { df with created := df.created ++ [d0], createResponses := rest }

/-- The fields that the purely local tree operations leave unchanged. -/
def SyncFrame (fm fm' : FileManager) : Prop :=
  fm'.df = fm.df ∧ fm'.last_sync = fm.last_sync ∧ fm'.sync_interval = fm.sync_interval

/-- The literal message of the interval gate. -/
def syncSkipMsg : String := "Not enough time has passed since last sync. Will do nothing."

/-! ## Supporting lemmas -/

@[simp] theorem lookupA_nil {α β : Type} [DecidableEq α] (a : α) :
    lookupA ([] : List (α × β)) a = none := rfl

@[simp] theorem lookupA_cons {α β : Type} [DecidableEq α] (k : α) (v : β)
    (m : List (α × β)) (a : α) :
    lookupA ((k, v) :: m) a = if k = a then some v else lookupA m a := rfl

theorem lookupA_eraseA {α β : Type} [DecidableEq α] (m : List (α × β)) (a a' : α) :
    lookupA (eraseA m a) a' = if a = a' then none else lookupA m a' := by
  induction m with
  | nil => simp [eraseA]
  | cons kv rest ih =>
    obtain ⟨k, v⟩ := kv
    by_cases hk : k = a
    · subst hk
      by_cases h : k = a' <;> simp [eraseA, List.filter, h] at ih ⊢ <;>
        simpa [eraseA, h] using ih
    · by_cases h' : k = a'
      · subst h'
        simp [eraseA, List.filter, hk]
        intro h; exact absurd h.symm hk
      · simp [eraseA, List.filter, hk, h'] at ih ⊢
        simpa [eraseA] using ih

theorem lookupA_insertA {α β : Type} [DecidableEq α] (m : List (α × β)) (a a' : α) (b : β) :
    lookupA (insertA m a b) a' = if a = a' then some b else lookupA m a' := by
  by_cases h : a = a' <;> simp [insertA, h, lookupA_eraseA]

theorem lookupA_insertA_self {α β : Type} [DecidableEq α] (m : List (α × β)) (a : α) (b : β) :
    lookupA (insertA m a b) a = some b := by
  simp [lookupA_insertA]

theorem lookupA_insertA_ne {α β : Type} [DecidableEq α] (m : List (α × β)) (a a' : α) (b : β)
    (h : a ≠ a') : lookupA (insertA m a b) a' = lookupA m a' := by
  simp [lookupA_insertA, h]


theorem lookupA_mem {α β : Type} [DecidableEq α] (m : List (α × β)) (a : α) (b : β)
    (h : lookupA m a = some b) : (a, b) ∈ m := by
  induction m with
  | nil => simp at h
  | cons kv rest ih =>
    obtain ⟨k, v⟩ := kv
    by_cases hk : k = a
    · subst hk; simp at h; simp [h]
    · simp [hk] at h; exact List.mem_cons_of_mem _ (ih h)

/-! ## Claim C8: write with an unresolvable remote id -/

/-- C8 (amended): when the remote id of the reference does not resolve,
`write` panics on the unwrapped resolution instead of returning
silently; in particular it never reaches the facade, so nothing is
enqueued. -/
theorem write_panics_on_unresolved (fm : FileManager) (id : FileId) (offset : Nat)
    (data : List Nat) (h : fm.get_drive_id id = .val none) :
    fm.write id offset data = .panicked := by
  simp [FileManager.write, h]

/-- Witness for `write_panics_on_unresolved` at a concrete manager. -/
theorem write_panics_on_unresolved_witness :
    fmBase.write (.inode 99) 0 [1, 2] = .panicked :=
  write_panics_on_unresolved fmBase (.inode 99) 0 [1, 2] (by decide)

/-- C8 counterexample: the claim asserts that `write` on an unresolvable
reference returns without panicking; on this concrete manager the
reference `inode 99` has no remote id and `write` panics. -/
theorem write_unresolved_cex :
    fmBase.get_drive_id (.inode 99) = .val none ∧
    fmBase.write (.inode 99) 0 [3] = .panicked ∧
    ∀ fm' : FileManager, fmBase.write (.inode 99) 0 [3] ≠ .val fm' := by
  refine ⟨by decide, by decide, ?_⟩
  intro fm' hc
  have : PRes.panicked = PRes.val fm' := by
    have h : fmBase.write (.inode 99) 0 [3] = .panicked := by decide
    rw [← h, hc]
  exact absurd this (by simp)

/-! ## Claim C9: get_children on unresolvable references -/

/-- C9 (amended): an inode reference absent from the node-id map yields
`None` from `get_children`, but a remote-id reference absent from the
remote-id map panics inside `get_node_id` (the source unwraps
`get_inode`). -/
theorem get_children_unknown_refs (fm : FileManager) (i : Inode) (d : DriveId)
    (hi : lookupA fm.node_ids i = none) (hd : lookupA fm.drive_ids d = none) :
    fm.get_children (.inode i) = .val none ∧ fm.get_children (.driveId d) = .panicked := by
  constructor
  · simp [FileManager.get_children, FileManager.get_node_id, FileManager.node_id_of_inode, hi]
  · simp [FileManager.get_children, FileManager.get_node_id, hd]

/-- Witness for `get_children_unknown_refs` at a concrete manager. -/
theorem get_children_unknown_refs_witness :
    fmBase.get_children (.inode 99) = .val none ∧
    fmBase.get_children (.driveId "nope") = .panicked :=
  get_children_unknown_refs fmBase 99 "nope" (by decide) (by decide)

/-- C9 counterexample: the claim asserts `get_children` returns `None`
and never panics for a remote-id reference absent from the remote-id
map; on this concrete manager it panics. -/
theorem get_children_unknown_drive_id_cex :
    lookupA fmBase.drive_ids "nope" = none ∧
    fmBase.get_children (.driveId "nope") = .panicked ∧
    fmBase.get_children (.driveId "nope") ≠ .val none := by
  refine ⟨by decide, by decide, by decide⟩

/-! ## Claim C1: delete and the identifier maps -/

/-- A lookup on a key filtered out of an association list fails. -/
theorem lookupA_filter_out {α β : Type} [DecidableEq α] (l : List (α × β))
    (ids : List α) (m : α) (hm : m ∈ ids) :
    lookupA (l.filter (fun kv => decide (kv.1 ∉ ids))) m = none := by
  induction l with
  | nil => rfl
  | cons kv rest ih =>
    rcases kv with ⟨k, v⟩
    rw [List.filter_cons]
    by_cases hk : k ∈ ids
    · rw [if_neg (by simpa using hk)]
      exact ih
    · rw [if_pos (by simpa using hk)]
      rw [lookupA_cons, if_neg (fun he => hk (by rw [he]; exact hm))]
      exact ih

/-- `remove_node(.., DropChildren)` empties every arena slot of the
call-time subtree. -/
theorem remove_node_subtree (t : Tree) (n : NId) (tr : Tree)
    (h : t.remove_node n = .ok tr) :
    ∀ m, m ∈ t.subtreeIds t.nodes.length n → tr.get m = none := by
  unfold Tree.remove_node at h
  cases hl : lookupA t.nodes n with
  | none => rw [hl] at h; simp at h
  | some nd =>
    rw [hl] at h
    simp only [Except.ok.injEq] at h
    subst h
    intro m hm
    show lookupA ((t.detach n).nodes.filter
      (fun kv => decide (kv.1 ∉ t.subtreeIds t.nodes.length n))) m = none
    exact lookupA_filter_out _ _ m hm

/-- Effect of `delete_locally`: the call-time subtree of the target
leaves the tree, and only the entry of the deleted inode itself leaves
the files, node-id and drive-id maps. -/
theorem delete_locally_maps (fm fm' : FileManager) (id : FileId) (x : Inode)
    (nx : NId) (dx : DriveId)
    (hx : fm.get_inode id = .val (some x))
    (hnx : fm.get_node_id id = .val (some nx))
    (hdx : fm.get_drive_id id = .val (some dx))
    (h : fm.delete_locally id = .val (.ok (), fm')) :
    fm'.files = eraseA fm.files x ∧ fm'.node_ids = eraseA fm.node_ids x ∧
    fm'.drive_ids = eraseA fm.drive_ids dx ∧
    (∀ m, m ∈ fm.tree.subtreeIds fm.tree.nodes.length nx → fm'.tree.get m = none) ∧
    fm'.df = fm.df := by
  unfold FileManager.delete_locally at h
  rw [hnx, hx, hdx] at h
  simp only at h
  cases hrm : fm.tree.remove_node nx with
  | error e => rw [hrm] at h; simp at h
  | ok tree =>
    rw [hrm] at h
    simp only [PRes.val.injEq, Prod.mk.injEq, true_and] at h
    subst h
    exact ⟨rfl, rfl, rfl, remove_node_subtree fm.tree nx tree hrm, rfl⟩

/-- C1 (amended): after `delete(X)` returns successfully, `contains(X)`
is false and the whole call-time subtree of X is removed from the tree,
but only X's own entries leave the three maps: the files, node-id and
drive-id maps lose exactly the entry of X's inode and of X's remote id,
so every call-time descendant D keeps its map entries and
`contains(FileId::Inode(D.inode))` stays true for any descendant D that
was in the map. -/
theorem delete_removes_only_target_from_maps
    (fm fm' : FileManager) (id : FileId) (x : Inode) (nx : NId) (dx : DriveId)
    (hx : fm.get_inode id = .val (some x))
    (hnx : fm.get_node_id id = .val (some nx))
    (hdx : fm.get_drive_id id = .val (some dx))
    (hdel : fm.delete id = .val (.ok (), fm')) :
    fm'.contains (.inode x) = .val false ∧
    (∀ m, m ∈ fm.tree.subtreeIds fm.tree.nodes.length nx → fm'.tree.get m = none) ∧
    fm'.files = eraseA fm.files x ∧
    fm'.node_ids = eraseA fm.node_ids x ∧
    fm'.drive_ids = eraseA fm.drive_ids dx ∧
    (∀ d : Inode, d ≠ x → lookupA fm'.node_ids d = lookupA fm.node_ids d) ∧
    (∀ p : DriveId, p ≠ dx → lookupA fm'.drive_ids p = lookupA fm.drive_ids p) := by
  unfold FileManager.delete at hdel
  rw [hdx] at hdel
  simp only at hdel
  cases hloc : fm.delete_locally id with
  | panicked => rw [hloc] at hdel; simp at hdel
  | val p0 =>
    obtain ⟨r0, fm1⟩ := p0
    rw [hloc] at hdel
    cases r0 with
    | error e => simp at hdel
    | ok u =>
      obtain ⟨hfiles, hnids, hdids, htree, _⟩ :=
        delete_locally_maps fm fm1 id x nx dx hx hnx hdx hloc
      simp only at hdel
      rcases hdp : (fm1.df.delete_permanently dx) with ⟨r1, df1⟩
      rw [hdp] at hdel
      cases r1 with
      | error e => simp at hdel
      | ok s =>
        simp only [PRes.val.injEq, Prod.mk.injEq, true_and] at hdel
        subst hdel
        refine ⟨?_, htree, hfiles, hnids, hdids, ?_, ?_⟩
        · simp [FileManager.contains, containsA, hnids, lookupA_eraseA]
        · intro d hd
          simp [hnids, lookupA_eraseA, Ne.symm hd]
        · intro p hp
          simp [hdids, lookupA_eraseA, Ne.symm hp]

/-- Witness for `delete_removes_only_target_from_maps`: deleting X
(inode 5, node 3, remote id "x") in the concrete manager root → X → D:
X is no longer contained, the call-time node 4 of descendant D is gone
from the tree, yet D (inode 6, remote id "d") keeps both its node-id
and its drive-id entry. -/
theorem delete_removes_only_target_from_maps_witness :
    fmC1.contains (.inode 6) = .val true ∧
    fmC1post.contains (.inode 5) = .val false ∧
    fmC1post.tree.get 4 = none ∧
    lookupA fmC1post.node_ids 6 = lookupA fmC1.node_ids 6 ∧
    lookupA fmC1post.drive_ids "d" = lookupA fmC1.drive_ids "d" := by
  have h := delete_removes_only_target_from_maps fmC1 fmC1post (.inode 5) 5 3 "x"
    (by decide) (by decide) (by decide) (by decide)
  exact ⟨by decide, h.1, h.2.1 4 (by decide), h.2.2.2.2.2.1 6 (by decide),
    h.2.2.2.2.2.2 "d" (by decide)⟩

/-- C1 counterexample: in the concrete manager root → X(5) → D(6), after
`delete(X)` returns `Ok`, D was a call-time descendant of X and yet
`contains(FileId::Inode(6))` is still true. -/
theorem delete_descendant_still_contained_cex :
    fmC1.delete (.inode 5) = .val (.ok (), fmC1post) ∧
    fmC1.get_children (.inode 5) = .val (some [fileD]) ∧
    fmC1post.contains (.inode 5) = .val false ∧
    fmC1post.contains (.inode 6) = .val true := by
  refine ⟨by decide, by decide, by decide, by decide⟩

/-! ## Claim C3: duplicate-suffix assignment on add -/

/-- C3: with the duplicate-rename feature enabled, adding two siblings
that share the display name `a.txt` leaves BOTH duplicate-suffix
indices empty, because `add_file_locally` takes the sibling count
before the file is inserted into the files map, `get_sibling_count`
therefore fails, and `unwrap_or_default()` turns that failure into a
count of 0.  The claim expected exactly one of them to carry index 2. -/
theorem add_never_assigns_duplicate_suffix :
    fmDupBase.rename_identical_files = true ∧
    fmDupBase.add_file_locally fileA1 (some (.inode ROOT_INODE)) = .val (.ok (), fmC3mid) ∧
    fmC3mid.add_file_locally fileA2 (some (.inode ROOT_INODE)) = .val (.ok (), fmC3) ∧
    fileA1.name = fileA2.name ∧
    (lookupA fmC3.files 10).map (fun f => f.identical_name_id) = some none ∧
    (lookupA fmC3.files 11).map (fun f => f.identical_name_id) = some none := by
  refine ⟨by decide, by decide, by decide, by decide, by decide, by decide⟩

/-! ## Claim C4: rename and the local display name -/

theorem lookupA_isSome_insertA {α β : Type} [DecidableEq α] (m : List (α × β)) (a a' : α)
    (b : β) (h : (lookupA m a').isSome = true) :
    (lookupA (insertA m a b) a').isSome = true := by
  rw [lookupA_insertA]; split <;> simp_all

/-- Node presence is preserved by `detach`. -/
theorem detach_presence (t : Tree) (n k : NId) (h : (lookupA t.nodes k).isSome = true) :
    (lookupA (t.detach n).nodes k).isSome = true := by
  unfold Tree.detach
  split
  · exact h
  · split
    · exact h
    · split
      · exact h
      · exact lookupA_isSome_insertA _ _ _ _ h

/-- Node presence is preserved by `setParent`. -/
theorem setParent_presence (t : Tree) (n : NId) (p : Option NId) (k : NId)
    (h : (lookupA t.nodes k).isSome = true) :
    (lookupA (t.setParent n p).nodes k).isSome = true := by
  unfold Tree.setParent
  split
  · exact h
  · exact lookupA_isSome_insertA _ _ _ _ h

/-- Node presence is preserved by `attach`. -/
theorem attach_presence (t : Tree) (n p k : NId) (h : (lookupA t.nodes k).isSome = true) :
    (lookupA (t.attach n p).nodes k).isSome = true := by
  unfold Tree.attach
  apply setParent_presence
  split
  · exact h
  · exact lookupA_isSome_insertA _ _ _ _ h

/-- After `setParent n p` on a present node, the parent link reads `p`. -/
theorem setParent_parentOf (t : Tree) (n : NId) (p : Option NId)
    (h : (lookupA t.nodes n).isSome = true) :
    (t.setParent n p).parentOf n = p := by
  unfold Tree.setParent Tree.parentOf Tree.get
  cases hl : lookupA t.nodes n with
  | none => rw [hl] at h; simp at h
  | some nn => simp [lookupA_insertA_self]

/-- After `attach n p` on a present node, the parent link reads `p`. -/
theorem attach_parentOf (t : Tree) (n p : NId) (h : (lookupA t.nodes n).isSome = true) :
    (t.attach n p).parentOf n = some p := by
  unfold Tree.attach
  split
  · exact setParent_parentOf _ n (some p) h
  · exact setParent_parentOf _ n (some p) (lookupA_isSome_insertA _ _ _ _ h)

/-- A successful `move_node n p` leaves the parent link of `n` at `p`. -/
theorem move_node_parentOf (t t' : Tree) (n p : NId) (h : t.move_node n p = .ok t') :
    t'.parentOf n = some p := by
  unfold Tree.move_node at h
  cases hn : lookupA t.nodes n with
  | none => rw [hn] at h; simp at h
  | some nn =>
    cases hp : lookupA t.nodes p with
    | none => rw [hn, hp] at h; simp at h
    | some pn =>
      rw [hn, hp] at h
      simp only [Except.ok.injEq] at h
      subst h
      apply attach_parentOf
      apply detach_presence
      have hpres : (lookupA t.nodes n).isSome = true := by rw [hn]; rfl
      cases hsr : t.subtreeRootBetween t.nodes.length p n with
      | none => simpa using hpres
      | some sr =>
        simp only
        by_cases hroot : t.root = some n
        · simp only [hroot, if_pos rfl]
          exact setParent_presence _ _ _ _ (detach_presence _ _ _ hpres)
        · simp only [if_neg hroot]
          cases hnpar : nn.parent with
          | none => exact hpres
          | some np => exact attach_presence _ _ _ _ (detach_presence _ _ _ hpres)

/-- C4 (amended): a successful `rename(X, P, N)` with the
duplicate-rename feature disabled moves the node of X under the node of
P in the tree but does not touch the files map at all: the local
display name of X stays what it was, so `get_file((P, N))` does not
find X under its new name (unless N was already its name). -/
theorem rename_feature_off_preserves_files
    (fm fm' : FileManager) (id0 : FileId) (new_parent : Inode) (new_name : String) (x : Inode)
    (hfeat : fm.rename_identical_files = false)
    (hx : fm.get_inode id0 = .val (some x))
    (hr : fm.rename id0 new_parent new_name = .val (.ok (), fm')) :
    fm'.files = fm.files ∧ fm'.node_ids = fm.node_ids ∧
    ∀ nx np : NId, lookupA fm.node_ids x = some nx →
      lookupA fm.node_ids new_parent = some np → fm'.tree.parentOf nx = some np := by
  unfold FileManager.rename at hr
  rw [hx] at hr
  simp only at hr
  cases hnx : fm.get_node_id (.inode x) with
  | panicked => rw [hnx] at hr; simp at hr
  | val onx =>
    rw [hnx] at hr
    cases onx with
    | none => simp at hr
    | some current_node =>
      simp only at hr
      cases hnp : fm.get_node_id (.inode new_parent) with
      | panicked => rw [hnp] at hr; simp at hr
      | val onp =>
        rw [hnp] at hr
        cases onp with
        | none => simp at hr
        | some target_node =>
          simp only at hr
          cases hmv : fm.tree.move_node current_node target_node with
          | error e => rw [hmv] at hr; simp at hr
          | ok tree =>
            rw [hmv] at hr
            simp only [hfeat, Bool.false_eq_true, if_false] at hr
            split at hr
            · simp at hr
            · simp at hr
            · split at hr
              · simp at hr
              · simp at hr
              · split at hr
                · simp at hr
                · simp only [PRes.val.injEq, Prod.mk.injEq, true_and] at hr
                  subst hr
                  refine ⟨rfl, rfl, ?_⟩
                  intro nx np hlx hlp
                  have hx' : lookupA fm.node_ids x = some current_node := by
                    simpa [FileManager.get_node_id, FileManager.node_id_of_inode] using hnx
                  have hp' : lookupA fm.node_ids new_parent = some target_node := by
                    simpa [FileManager.get_node_id, FileManager.node_id_of_inode] using hnp
                  rw [hx'] at hlx
                  rw [hp'] at hlp
                  cases hlx; cases hlp
                  exact move_node_parentOf _ _ _ _ hmv

/-- Witness for `rename_feature_off_preserves_files` on the concrete
fixture: the files map is untouched and the node of X now hangs under
the root node. -/
theorem rename_feature_off_preserves_files_witness :
    fmC4post.files = fmC4.files ∧
    fmC4post.tree.parentOf 3 = some 0 := by
  have h := rename_feature_off_preserves_files fmC4 fmC4post (.inode 5) ROOT_INODE
    "new.txt" 5 (by decide) (by decide) (by decide)
  exact ⟨h.1, h.2.2 3 0 (by decide) (by decide)⟩

/-- C4 counterexample: with the feature disabled, a successful
`rename(X, root, "new.txt")` issues the remote move under the new name,
yet `get_file((root, "new.txt"))` returns `None` because the local
display name was never updated. -/
theorem rename_lookup_cex :
    fmC4.rename_identical_files = false ∧
    fmC4.rename (.inode 5) ROOT_INODE "new.txt" = .val (.ok (), fmC4post) ∧
    fmC4post.df.movedTo = [("x", "rootid", "new.txt")] ∧
    fmC4post.get_file (.parentAndName ROOT_INODE "new.txt") = .val none ∧
    fmC4post.get_file (.parentAndName ROOT_INODE "x.txt") = .val (some fileX) := by
  refine ⟨by decide, by decide, by decide, by decide, by decide⟩

/-! ## Claim C6: create_file and the remote gate -/

/-- Reference resolution does not read the facade. -/
theorem get_node_id_ignores_df (fm : FileManager) (df' : DriveFacade) (id : FileId) :
    ({ fm with df := df' } : FileManager).get_node_id id = fm.get_node_id id := by
  cases id <;> rfl

/-- When the parent resolves to a live node and the inode of the file is
not yet in the files map, `add_file_locally` succeeds and registers the
file unchanged (a fresh inode makes the pre-insertion sibling count
fail, so the duplicate-suffix index is cleared, which for a file that
carries none is the identity). -/
theorem add_file_locally_inserts (fm : FileManager) (file : File) (pid : FileId)
    (pn : NId)
    (hident : file.identical_name_id = none)
    (hfresh : lookupA fm.files file.ino = none)
    (hpn : fm.get_node_id pid = .val (some pn))
    (hvalid : (lookupA fm.tree.nodes pn).isSome = true) :
    ∃ fm', fm.add_file_locally file (some pid) = .val (.ok (), fm') ∧
      fm'.files = insertA fm.files file.ino file ∧
      fm'.node_ids = insertA fm.node_ids file.ino fm.tree.nextId ∧
      fm'.df = fm.df := by
  obtain ⟨pnode, hv⟩ := Option.isSome_iff_exists.mp hvalid
  have hid : ({ file with identical_name_id := none } : File) = file := by
    cases file; simp_all
  have hsc : fm.get_sibling_count (.inode file.inode) pid = .val (.error "Cannot get_file") := by
    unfold FileManager.get_sibling_count FileManager.get_file
    simp [FileManager.get_inode, File.inode, hfresh]
  unfold FileManager.add_file_locally
  dsimp only
  rw [hpn]
  dsimp only
  by_cases hfe : fm.rename_identical_files
  · rw [if_pos (by rw [hfe]), hsc]
    dsimp only
    rw [if_neg (by decide), hid]
    unfold Tree.insertUnder
    rw [hv]
    dsimp only
    exact ⟨_, rfl, rfl, rfl, rfl⟩
  · rw [if_neg (by simp [hfe])]
    unfold Tree.insertUnder
    rw [hv]
    dsimp only
    exact ⟨_, rfl, rfl, rfl, rfl⟩

/-- C6 (amended): `create_file(F, P)` asks the remote first; a remote
failure is surfaced with the tree and all three identifier maps
untouched; on a returned remote id, provided the parent reference
resolves to a live node, F is registered locally carrying that id and
`get_file(F.inode)` returns exactly F with the id filled in.  When the
remote accepts but the parent does not resolve, the error is surfaced
with the file absent locally (shown by the counterexample). -/
theorem create_file_gate
    (fm : FileManager) (file : File) (pid : FileId) (d0 : DriveFile)
    (hdf : file.drive_file = some d0)
    (hident : file.identical_name_id = none)
    (hfresh : lookupA fm.files file.ino = none) :
    (∀ e rest, fm.df.createResponses = .error e :: rest →
      ∃ fm', fm.create_file file (some pid) = .val (.error e, fm') ∧
        fm'.tree = fm.tree ∧ fm'.files = fm.files ∧
        fm'.node_ids = fm.node_ids ∧ fm'.drive_ids = fm.drive_ids) ∧
    (∀ did rest pn, fm.df.createResponses = .ok did :: rest →
      fm.get_node_id pid = .val (some pn) →
      (lookupA fm.tree.nodes pn).isSome = true →
      ∃ fm', fm.create_file file (some pid) = .val (.ok (), fm') ∧
        fm'.get_file (.inode file.ino) = .val (some (file.set_drive_id did))) := by
  constructor
  · intro e rest hresp
    unfold FileManager.create_file
    rw [hdf]
    unfold DriveFacade.create
    simp only [hresp]
    exact ⟨_, rfl, rfl, rfl, rfl, rfl⟩
  · intro did rest pn hresp hpn hvalid
    unfold FileManager.create_file
    rw [hdf]
    unfold DriveFacade.create
    simp only [hresp]
    have hident' : (file.set_drive_id did).identical_name_id = none := by
      simp [File.set_drive_id, hident]
    have hino : (file.set_drive_id did).ino = file.ino := by
      simp [File.set_drive_id]
    have hfm2 : ∀ rest', ({ fm with df := dfAfterCreate fm.df d0 rest' } : FileManager).files
        = fm.files := fun _ => rfl
    obtain ⟨fm', hadd, hfiles, hnids, hdf2⟩ :=
      add_file_locally_inserts { fm with df := dfAfterCreate fm.df d0 rest }
        (file.set_drive_id did) pid pn hident'
        (by rw [hino]; exact hfresh)
        (by rw [get_node_id_ignores_df]; exact hpn) hvalid
    refine ⟨fm', ?_, ?_⟩
    · exact hadd
    · have hgf : fm'.get_file (.inode file.ino) = .val (lookupA fm'.files file.ino) := rfl
      rw [hgf, hfiles, hfm2, ← hino, lookupA_insertA_self]

/-- Witness for `create_file_gate`: both branches at concrete managers
(remote decline, and remote accept with the root as parent). -/
theorem create_file_gate_witness :
    (∃ fm', ({ fmBase with df := { fmBase.df with createResponses := [.error "boom"] } }
        : FileManager).create_file fileF (some (.inode ROOT_INODE)) =
        .val (.error "boom", fm') ∧
      fm'.tree = fmBase.tree ∧ fm'.files = fmBase.files ∧
      fm'.node_ids = fmBase.node_ids ∧ fm'.drive_ids = fmBase.drive_ids) ∧
    (∃ fm', fmC6.create_file fileF (some (.inode ROOT_INODE)) = .val (.ok (), fm') ∧
      fm'.get_file (.inode fileF.ino) = .val (some (fileF.set_drive_id "newid"))) := by
  constructor
  · exact (create_file_gate
      { fmBase with df := { fmBase.df with createResponses := [.error "boom"] } }
      fileF (.inode ROOT_INODE)
      { id := none, dname := some "f.txt", parents := some ["rootid"],
        trashed := none, mimeType := none }
      (by decide) (by decide) (by decide)).1 "boom" [] (by decide)
  · exact (create_file_gate fmC6 fileF (.inode ROOT_INODE)
      { id := none, dname := some "f.txt", parents := some ["rootid"],
        trashed := none, mimeType := none }
      (by decide) (by decide) (by decide)).2 "newid" [] 0 (by decide) (by decide) (by decide)

/-- C6 counterexample: the facade accepts the create and returns an id,
but the parent reference does not resolve: `create_file` returns an
error and F was not inserted, although the remote call succeeded. -/
theorem create_file_remote_ok_not_inserted_cex :
    fmC6.df.createResponses = [.ok "newid"] ∧
    fmC6.create_file fileF (some (.inode 99)) =
      .val (.error "FileManager::add_file_locally() could not find parent", fmC6post) ∧
    fmC6post.df.created = [{ id := none, dname := some "f.txt", parents := some ["rootid"],
                             trashed := none, mimeType := none }] ∧
    fmC6post.df.createResponses = [] ∧
    lookupA fmC6post.files 20 = none ∧
    fmC6post.get_file (.inode fileF.ino) = .val none := by
  refine ⟨by decide, by decide, by decide, by decide, by decide, by decide⟩

/-! ## Frame lemmas: the sync-loop operations never touch the facade,
`last_sync` or `sync_interval` -/

theorem syncFrame_refl (fm : FileManager) : SyncFrame fm fm := ⟨rfl, rfl, rfl⟩

theorem syncFrame_trans {fm1 fm2 fm3 : FileManager}
    (h1 : SyncFrame fm1 fm2) (h2 : SyncFrame fm2 fm3) : SyncFrame fm1 fm3 :=
  ⟨h2.1.trans h1.1, h2.2.1.trans h1.2.1, h2.2.2.trans h1.2.2⟩

theorem val_pair_frame {r r' : Except String Unit} {fmA fmB fm' : FileManager}
    (h : (.val (r', fmB) : OpResult) = .val (r, fm')) (hf : SyncFrame fmA fmB) :
    SyncFrame fmA fm' := by
  simp only [PRes.val.injEq, Prod.mk.injEq] at h
  rw [← h.2]; exact hf

/-- Leaf helper: registering a file under a resolved parent keeps the
sync bookkeeping fields. -/
theorem renamed_match_frame (fm fm' : FileManager) (renamed : PRes File) (parent_id : NId)
    (r : Except String Unit)
    (h : (match renamed with
          | .panicked => (.panicked : OpResult)
          | .val file =>
            match fm.tree.insertUnder file.inode parent_id with
            | .error e => .val (.error e, fm)
            | .ok (node_id, tree) => .val (.ok (), fm.registerFile tree node_id file)) =
        .val (r, fm')) :
    SyncFrame fm fm' := by
  cases renamed with
  | panicked => simp at h
  | val f' =>
    dsimp only at h
    cases hins : fm.tree.insertUnder f'.inode parent_id with
    | error e => rw [hins] at h; exact val_pair_frame h (syncFrame_refl fm)
    | ok p =>
      obtain ⟨nid, tr⟩ := p
      rw [hins] at h
      dsimp only at h
      exact val_pair_frame h ⟨rfl, rfl, rfl⟩

theorem add_file_locally_frame (fm fm' : FileManager) (f : File) (p : Option FileId)
    (r : Except String Unit) (h : fm.add_file_locally f p = .val (r, fm')) :
    SyncFrame fm fm' := by
  unfold FileManager.add_file_locally at h
  cases p with
  | none =>
    dsimp only at h
    rcases hins : fm.tree.insertAsRoot f.inode with ⟨nid, tr⟩
    rw [hins] at h
    dsimp only at h
    exact val_pair_frame h ⟨rfl, rfl, rfl⟩
  | some id =>
    dsimp only at h
    cases hn : fm.get_node_id id with
    | panicked => rw [hn] at h; simp at h
    | val o =>
      rw [hn] at h
      cases o with
      | none => exact val_pair_frame h (syncFrame_refl fm)
      | some parent_id =>
        dsimp only at h
        exact renamed_match_frame fm fm' _ parent_id r h

theorem move_locally_frame (fm fm' : FileManager) (id np : FileId)
    (r : Except String Unit) (h : fm.move_locally id np = .val (r, fm')) :
    SyncFrame fm fm' := by
  unfold FileManager.move_locally at h
  cases h1 : fm.get_node_id id with
  | panicked => rw [h1] at h; simp at h
  | val o1 =>
    rw [h1] at h
    cases o1 with
    | none => exact val_pair_frame h (syncFrame_refl fm)
    | some current_node =>
      dsimp only at h
      cases h2 : fm.get_node_id np with
      | panicked => rw [h2] at h; simp at h
      | val o2 =>
        rw [h2] at h
        cases o2 with
        | none => exact val_pair_frame h (syncFrame_refl fm)
        | some target_node =>
          dsimp only at h
          cases h3 : fm.tree.move_node current_node target_node with
          | error e => rw [h3] at h; exact val_pair_frame h (syncFrame_refl fm)
          | ok tree =>
            rw [h3] at h
            dsimp only at h
            split at h
            · cases h4 : ({ fm with tree := tree } : FileManager).get_sibling_count id np with
              | panicked => rw [h4] at h; simp at h
              | val rc =>
                rw [h4] at h
                cases rc with
                | error e => exact val_pair_frame h ⟨rfl, rfl, rfl⟩
                | ok count =>
                  dsimp only at h
                  cases h5 : ({ fm with tree := tree } : FileManager).get_file id with
                  | panicked => rw [h5] at h; simp at h
                  | val o3 =>
                    rw [h5] at h
                    cases o3 with
                    | none => exact val_pair_frame h ⟨rfl, rfl, rfl⟩
                    | some file =>
                      dsimp only at h
                      split at h <;> exact val_pair_frame h ⟨rfl, rfl, rfl⟩
            · exact val_pair_frame h ⟨rfl, rfl, rfl⟩

theorem delete_locally_frame (fm fm' : FileManager) (id : FileId)
    (r : Except String Unit) (h : fm.delete_locally id = .val (r, fm')) :
    SyncFrame fm fm' := by
  unfold FileManager.delete_locally at h
  cases h1 : fm.get_node_id id with
  | panicked => rw [h1] at h; simp at h
  | val o1 =>
    rw [h1] at h
    cases o1 with
    | none => exact val_pair_frame h (syncFrame_refl fm)
    | some node_id =>
      dsimp only at h
      cases h2 : fm.get_inode id with
      | panicked => rw [h2] at h; simp at h
      | val o2 =>
        rw [h2] at h
        cases o2 with
        | none => exact val_pair_frame h (syncFrame_refl fm)
        | some inode =>
          dsimp only at h
          cases h3 : fm.get_drive_id id with
          | panicked => rw [h3] at h; simp at h
          | val o3 =>
            rw [h3] at h
            cases o3 with
            | none => exact val_pair_frame h (syncFrame_refl fm)
            | some drive_id =>
              dsimp only at h
              cases h4 : fm.tree.remove_node node_id with
              | error e => rw [h4] at h; exact val_pair_frame h (syncFrame_refl fm)
              | ok tree =>
                rw [h4] at h
                exact val_pair_frame h ⟨rfl, rfl, rfl⟩

theorem move_file_to_trash_false_frame (fm fm' : FileManager) (id : FileId)
    (r : Except String Unit) (h : fm.move_file_to_trash id false = .val (r, fm')) :
    SyncFrame fm fm' := by
  unfold FileManager.move_file_to_trash at h
  cases h1 : fm.get_node_id id with
  | panicked => rw [h1] at h; simp at h
  | val o1 =>
    rw [h1] at h
    cases o1 with
    | none => exact val_pair_frame h (syncFrame_refl fm)
    | some node_id =>
      dsimp only at h
      cases h2 : fm.get_drive_id id with
      | panicked => rw [h2] at h; simp at h
      | val o2 =>
        rw [h2] at h
        cases o2 with
        | none => exact val_pair_frame h (syncFrame_refl fm)
        | some drive_id =>
          dsimp only at h
          cases h3 : fm.get_node_id (.inode TRASH_INODE) with
          | panicked => rw [h3] at h; simp at h
          | val o3 =>
            rw [h3] at h
            cases o3 with
            | none => exact val_pair_frame h (syncFrame_refl fm)
            | some trash_id =>
              dsimp only at h
              cases h4 : fm.tree.move_node node_id trash_id with
              | error e => rw [h4] at h; exact val_pair_frame h (syncFrame_refl fm)
              | ok tree =>
                rw [h4] at h
                dsimp only at h
                exact val_pair_frame h ⟨rfl, rfl, rfl⟩

theorem processChangeNew_frame (fm fm' : FileManager) (fid : DriveId) (d : DriveFile)
    (r : Except String Unit) (h : fm.processChangeNew fid d = .val (r, fm')) :
    SyncFrame fm fm' := by
  unfold FileManager.processChangeNew at h
  cases hc : fm.contains (.driveId fid) with
  | panicked => rw [hc] at h; simp at h
  | val b =>
    rw [hc] at h
    cases b with
    | true =>
      simp only [PRes.val.injEq, Prod.mk.injEq] at h
      rw [← h.2]; exact syncFrame_refl fm
    | false =>
      dsimp only at h
      cases hdp : (File.from_drive_file (fm.last_inode + 1) d
          fm.add_extensions_to_special_files).drive_parent with
      | none =>
        rw [show (File.from_drive_file (fm.next_available_inode).1 d
            (fm.next_available_inode).2.add_extensions_to_special_files).drive_parent
            = none from hdp] at h
        simp at h
      | some parent =>
        rw [show (File.from_drive_file (fm.next_available_inode).1 d
            (fm.next_available_inode).2.add_extensions_to_special_files).drive_parent
            = some parent from hdp] at h
        dsimp only at h
        exact syncFrame_trans
          (show SyncFrame fm fm.next_available_inode.2 from ⟨rfl, rfl, rfl⟩)
          (add_file_locally_frame _ _ _ _ _ h)

/-- Leaf helper: a logged-and-ignored `move_locally` keeps the frame. -/
theorem move_match_frame (fmA fmB fm' : FileManager) (id np : FileId) (r : Except String Unit)
    (h : (match fmB.move_locally id np with
          | .panicked => (.panicked : OpResult)
          | .val (_, fm) => .val (.ok (), fm)) = .val (r, fm'))
    (hAB : SyncFrame fmA fmB) :
    SyncFrame fmA fm' := by
  cases hml : fmB.move_locally id np with
  | panicked => rw [hml] at h; simp at h
  | val p =>
    obtain ⟨r1, fm1⟩ := p
    rw [hml] at h
    dsimp only at h
    exact val_pair_frame h (syncFrame_trans hAB (move_locally_frame _ _ _ _ _ hml))

theorem processChangeApply_frame (fm fm' : FileManager) (fid : DriveId) (d : DriveFile)
    (c : Change) (r : Except String Unit)
    (h : fm.processChangeApply fid d c = .val (r, fm')) : SyncFrame fm fm' := by
  unfold FileManager.processChangeApply at h
  by_cases ht : d.trashed = some true
  · rw [if_pos ht] at h
    cases hmv : fm.move_file_to_trash (.driveId fid) false with
    | panicked => rw [hmv] at h; simp at h
    | val p =>
      rw [hmv] at h
      simp only [PRes.val.injEq, Prod.mk.injEq] at h
      rw [← h.2]
      exact move_file_to_trash_false_frame _ _ _ _ hmv
  · rw [if_neg ht] at h
    by_cases hrm : c.removed = some true
    · rw [if_pos hrm] at h
      cases hdl : fm.delete_locally (.driveId fid) with
      | panicked => rw [hdl] at h; simp at h
      | val p =>
        rw [hdl] at h
        simp only [PRes.val.injEq, Prod.mk.injEq] at h
        rw [← h.2]
        exact delete_locally_frame _ _ _ _ hdl
    · rw [if_neg hrm] at h
      cases hgf : fm.get_file (.driveId fid) with
      | panicked => rw [hgf] at h; simp at h
      | val o =>
        rw [hgf] at h
        cases o with
        | none =>
          simp only [PRes.val.injEq, Prod.mk.injEq] at h
          rw [← h.2]; exact syncFrame_refl fm
        | some f =>
          dsimp only at h
          cases hdp : (File.from_drive_file f.inode d
              fm.add_extensions_to_special_files).drive_parent with
          | none => rw [hdp] at h; dsimp only at h; simp at h
          | some p =>
            rw [hdp] at h
            dsimp only at h
            exact move_match_frame fm _ fm' _ _ r h ⟨rfl, rfl, rfl⟩

theorem processChange_frame (fm fm' : FileManager) (c : Change) (r : Except String Unit)
    (h : fm.processChange c = .val (r, fm')) : SyncFrame fm fm' := by
  unfold FileManager.processChange at h
  cases hcf : c.file with
  | none =>
    rw [hcf] at h
    simp only [PRes.val.injEq, Prod.mk.injEq] at h
    rw [← h.2]; exact syncFrame_refl fm
  | some drive_f =>
    rw [hcf] at h
    cases hcid : c.file_id with
    | none => rw [hcid] at h; simp at h
    | some fid =>
      rw [hcid] at h
      dsimp only at h
      cases hs1 : fm.processChangeNew fid drive_f with
      | panicked => rw [hs1] at h; simp at h
      | val p =>
        obtain ⟨r1, fm1⟩ := p
        rw [hs1] at h
        cases r1 with
        | error e =>
          simp only [PRes.val.injEq, Prod.mk.injEq] at h
          rw [← h.2]
          exact processChangeNew_frame _ _ _ _ _ hs1
        | ok u =>
          exact syncFrame_trans (processChangeNew_frame _ _ _ _ _ hs1)
            (processChangeApply_frame _ _ _ _ _ _ h)

theorem processChanges_frame (cs : List Change) :
    ∀ (fm fm' : FileManager) (r : Except String Unit),
    fm.processChanges cs = .val (r, fm') → SyncFrame fm fm' := by
  induction cs with
  | nil =>
    intro fm fm' r h
    unfold FileManager.processChanges at h
    simp only [PRes.val.injEq, Prod.mk.injEq] at h
    rw [← h.2]; exact syncFrame_refl fm
  | cons c rest ih =>
    intro fm fm' r h
    unfold FileManager.processChanges at h
    cases hpc : fm.processChange c with
    | panicked => rw [hpc] at h; simp at h
    | val p =>
      obtain ⟨r1, fm1⟩ := p
      rw [hpc] at h
      cases r1 with
      | error e =>
        simp only [PRes.val.injEq, Prod.mk.injEq] at h
        rw [← h.2]
        exact processChange_frame _ _ _ _ hpc
      | ok u =>
        exact syncFrame_trans (processChange_frame _ _ _ _ hpc) (ih _ _ _ h)

/-! ## Claims C5 and C10: the sync interval gate -/

/-- A call inside the interval is declined with the skip error and the
state returned untouched. -/
theorem sync_skip (fm1 : FileManager) (now2 : Nat)
    (ha : fm1.last_sync ≤ now2) (hb : now2 - fm1.last_sync < fm1.sync_interval) :
    fm1.sync now2 = .val (.error syncSkipMsg, fm1) := by
  unfold FileManager.sync
  rw [if_neg (by omega), if_pos hb]
  rfl

theorem get_all_changes_calls (df : DriveFacade) :
    (df.get_all_changes).2.changeCalls = df.changeCalls + 1 := by
  unfold DriveFacade.get_all_changes
  cases df.changeResponses <;> rfl

/-- C5: when the gate passes at `now1` and the call returns (with any
outcome), `last_sync` was advanced to `now1` before the facade request
(it reads `now1` afterwards no matter what the request returned), the
facade was asked for changes exactly once, and a second call at `now2`
within the interval is declined with the skip error, changing
nothing: it returns the state it was given. -/
theorem sync_interval_gate
    (fm fm1 : FileManager) (r1 : Except String Unit) (now1 now2 : Nat)
    (h0 : fm.last_sync ≤ now1)
    (h1 : fm.sync_interval ≤ now1 - fm.last_sync)
    (h2 : now1 ≤ now2) (h3 : now2 - now1 < fm.sync_interval)
    (h4 : fm.sync now1 = .val (r1, fm1)) :
    fm1.last_sync = now1 ∧
    fm1.df.changeCalls = fm.df.changeCalls + 1 ∧
    fm1.sync now2 = .val (.error syncSkipMsg, fm1) := by
  unfold FileManager.sync at h4
  rw [if_neg (by omega), if_neg (by omega)] at h4
  dsimp only at h4
  rcases hgac : fm.df.get_all_changes with ⟨res, dfX⟩
  rw [hgac] at h4
  have hcalls : dfX.changeCalls = fm.df.changeCalls + 1 := by
    have := get_all_changes_calls fm.df
    rw [hgac] at this
    exact this
  cases res with
  | error e =>
    dsimp only at h4
    simp only [PRes.val.injEq, Prod.mk.injEq] at h4
    rw [← h4.2]
    refine ⟨rfl, hcalls, ?_⟩
    exact sync_skip _ now2 (show now1 ≤ now2 by omega) (show now2 - now1 < fm.sync_interval from h3)
  | ok chs =>
    dsimp only at h4
    have hframe := processChanges_frame (chs.filter (fun c => c.file.isSome)) _ _ _ h4
    obtain ⟨hdf, hls, hsi⟩ := hframe
    refine ⟨by rw [hls], by rw [hdf]; exact hcalls, ?_⟩
    exact sync_skip _ now2 (by rw [hls]; exact (show now1 ≤ now2 by omega))
      (by rw [hls, hsi]; exact (show now2 - now1 < fm.sync_interval from h3))

/-- Witness for `sync_interval_gate` on the concrete manager. -/
theorem sync_interval_gate_witness :
    fmSyncPost.last_sync = 100 ∧
    fmSyncPost.df.changeCalls = fmSync.df.changeCalls + 1 ∧
    fmSyncPost.sync 105 = .val (.error syncSkipMsg, fmSyncPost) :=
  sync_interval_gate fmSync fmSyncPost (.ok ()) 100 105
    (by decide) (by decide) (by decide) (by decide) (by decide)

/-- C10: when the facade fails inside `sync`, the error is surfaced but
`last_sync` stays advanced to the attempt time, so a later call within
the interval of the failed attempt does no remote work: it is declined
before reaching the facade, with the state unchanged. -/
theorem sync_failure_keeps_last_sync
    (fm : FileManager) (e : String) (rest : List (Except String (List Change)))
    (now1 now2 : Nat)
    (h0 : fm.last_sync ≤ now1)
    (h1 : fm.sync_interval ≤ now1 - fm.last_sync)
    (hresp : fm.df.changeResponses = .error e :: rest)
    (h2 : now1 ≤ now2) (h3 : now2 - now1 < fm.sync_interval) :
    ∃ fm1, fm.sync now1 = .val (.error e, fm1) ∧
      fm1.last_sync = now1 ∧
      fm1.df.changeCalls = fm.df.changeCalls + 1 ∧
      fm1.sync now2 = .val (.error syncSkipMsg, fm1) := by
  unfold FileManager.sync
  rw [if_neg (by omega), if_neg (by omega)]
  dsimp only
  unfold DriveFacade.get_all_changes
  rw [hresp]
  dsimp only
  refine ⟨_, rfl, rfl, rfl, ?_⟩
  exact sync_skip _ now2 (show now1 ≤ now2 by omega) (show now2 - now1 < fm.sync_interval from h3)

/-- Witness for `sync_failure_keeps_last_sync` on the concrete manager. -/
theorem sync_failure_keeps_last_sync_witness :
    ∃ fm1, fmSyncErr.sync 100 = .val (.error "network down", fm1) ∧
      fm1.last_sync = 100 ∧
      fm1.df.changeCalls = fmSyncErr.df.changeCalls + 1 ∧
      fm1.sync 105 = .val (.error syncSkipMsg, fm1) :=
  sync_failure_keeps_last_sync fmSyncErr "network down" [] 100 105
    (by decide) (by decide) (by decide) (by decide) (by decide)

/-! ## Claim C2: the sync loop and per-change failures -/

theorem handlesLive_lookup (fm : FileManager) (hlive : fm.handlesLive = true)
    (i : Inode) (n : NId) (h : lookupA fm.node_ids i = some n) :
    (fm.tree.get n).isSome = true := by
  have hmem := lookupA_mem fm.node_ids i n h
  have := List.all_eq_true.mp hlive _ hmem
  simpa using this

theorem from_drive_file_drive_parent (i : Inode) (d : DriveFile) (b : Bool) :
    (File.from_drive_file i d b).drive_parent = d.firstParent := by
  simp [File.from_drive_file, File.drive_parent, DriveFile.firstParent]

/-- Resolving a remote-id reference to a file view never panics. -/
theorem get_file_driveId_val (fm : FileManager) (d : DriveId) :
    ∃ o, fm.get_file (.driveId d) = .val o := by
  have h : fm.get_inode (.driveId d) = .val (lookupA fm.drive_ids d) := rfl
  unfold FileManager.get_file
  rw [h]
  cases lookupA fm.drive_ids d with
  | none => exact ⟨_, rfl⟩
  | some i => exact ⟨_, rfl⟩

theorem get_drive_id_driveId_val (fm : FileManager) (d : DriveId) :
    ∃ o, fm.get_drive_id (.driveId d) = .val o := by
  obtain ⟨o, ho⟩ := get_file_driveId_val fm d
  unfold FileManager.get_drive_id
  rw [ho]
  cases o <;> exact ⟨_, rfl⟩

/-- Resolving a known remote-id reference to a node handle never
panics. -/
theorem get_node_id_known_val (fm : FileManager) (d : DriveId)
    (hknown : containsA fm.drive_ids d = true) :
    fm.get_node_id (.driveId d) =
      .val ((lookupA fm.drive_ids d).bind fm.node_id_of_inode) := by
  obtain ⟨i, hi⟩ := Option.isSome_iff_exists.mp (by simpa [containsA] using hknown)
  unfold FileManager.get_node_id
  dsimp only
  rw [hi]
  rfl

/-- A successful `move_node` keeps every arena slot present. -/
theorem move_node_presence (t t' : Tree) (n p k : NId) (h : t.move_node n p = .ok t')
    (hk : (lookupA t.nodes k).isSome = true) : (lookupA t'.nodes k).isSome = true := by
  unfold Tree.move_node at h
  cases hn : lookupA t.nodes n with
  | none => rw [hn] at h; simp at h
  | some nn =>
    cases hp : lookupA t.nodes p with
    | none => rw [hn, hp] at h; simp at h
    | some pn =>
      rw [hn, hp] at h
      simp only [Except.ok.injEq] at h
      subst h
      apply attach_presence
      apply detach_presence
      cases hsr : t.subtreeRootBetween t.nodes.length p n with
      | none => simpa using hk
      | some sr =>
        simp only
        by_cases hroot : t.root = some n
        · simp only [hroot, if_pos rfl]
          exact setParent_presence _ _ _ _ (detach_presence _ _ _ hk)
        · simp only [if_neg hroot]
          cases hnpar : nn.parent with
          | none => exact hk
          | some np => exact attach_presence _ _ _ _ (detach_presence _ _ _ hk)

/-- Live handles survive a tree move. -/
theorem handlesLive_after_move (fm : FileManager) (tree : Tree) (a b : NId)
    (hmv : fm.tree.move_node a b = .ok tree) (hlive : fm.handlesLive = true) :
    ({ fm with tree := tree } : FileManager).handlesLive = true := by
  unfold FileManager.handlesLive at hlive ⊢
  rw [List.all_eq_true] at hlive ⊢
  intro kv hkv
  have hh := hlive kv hkv
  have : (lookupA tree.nodes kv.2).isSome = true :=
    move_node_presence _ _ _ _ _ hmv (by simpa [Tree.get] using hh)
  simpa [Tree.get] using this

/-- A local trash move of a known remote id cannot panic (the
`also_on_drive` flag is false on the sync path). -/
theorem move_file_to_trash_false_val (fm : FileManager) (fid : DriveId)
    (hknown : containsA fm.drive_ids fid = true) :
    ∃ out, fm.move_file_to_trash (.driveId fid) false = .val out := by
  unfold FileManager.move_file_to_trash
  rw [get_node_id_known_val fm fid hknown]
  cases ho1 : (lookupA fm.drive_ids fid).bind fm.node_id_of_inode with
  | none => exact ⟨_, rfl⟩
  | some node_id =>
    dsimp only
    obtain ⟨o2, ho2⟩ := get_drive_id_driveId_val fm fid
    rw [ho2]
    cases o2 with
    | none => exact ⟨_, rfl⟩
    | some drive_id =>
      dsimp only
      rw [show fm.get_node_id (.inode TRASH_INODE) =
        .val (fm.node_id_of_inode TRASH_INODE) from rfl]
      cases ho3 : fm.node_id_of_inode TRASH_INODE with
      | none => exact ⟨_, rfl⟩
      | some trash_id =>
        dsimp only
        cases ho4 : fm.tree.move_node node_id trash_id with
        | error e => exact ⟨_, rfl⟩
        | ok tree => exact ⟨_, rfl⟩

/-- A local delete of a known remote id cannot panic. -/
theorem delete_locally_driveId_val (fm : FileManager) (fid : DriveId)
    (hknown : containsA fm.drive_ids fid = true) :
    ∃ out, fm.delete_locally (.driveId fid) = .val out := by
  have hgi : fm.get_inode (.driveId fid) = .val (lookupA fm.drive_ids fid) := rfl
  unfold FileManager.delete_locally
  rw [get_node_id_known_val fm fid hknown]
  cases ho1 : (lookupA fm.drive_ids fid).bind fm.node_id_of_inode with
  | none => exact ⟨_, rfl⟩
  | some node_id =>
    dsimp only
    rw [hgi]
    cases ho2 : lookupA fm.drive_ids fid with
    | none => exact ⟨_, rfl⟩
    | some i =>
      dsimp only
      obtain ⟨o3, ho3⟩ := get_drive_id_driveId_val fm fid
      rw [ho3]
      cases o3 with
      | none => exact ⟨_, rfl⟩
      | some drive_id =>
        dsimp only
        cases ho5 : fm.tree.remove_node node_id with
        | error e => exact ⟨_, rfl⟩
        | ok tree => exact ⟨_, rfl⟩

/-- `get_children` on a known remote id with live handles never
panics. -/
theorem get_children_known_val (fm : FileManager) (d : DriveId)
    (hknown : containsA fm.drive_ids d = true) (hlive : fm.handlesLive = true) :
    ∃ o, fm.get_children (.driveId d) = .val o := by
  unfold FileManager.get_children
  rw [get_node_id_known_val fm d hknown]
  obtain ⟨i, hi⟩ := Option.isSome_iff_exists.mp (by simpa [containsA] using hknown)
  rw [hi, show (some i).bind fm.node_id_of_inode = fm.node_id_of_inode i from rfl]
  cases hni : fm.node_id_of_inode i with
  | none => exact ⟨_, rfl⟩
  | some n =>
    dsimp only
    have hsome := handlesLive_lookup fm hlive i n hni
    obtain ⟨node, hnode⟩ := Option.isSome_iff_exists.mp hsome
    unfold Tree.childrenData
    rw [show fm.tree.get n = some node from hnode]
    exact ⟨_, rfl⟩

/-- The sibling count over remote-id references with a known parent and
live handles never panics. -/
theorem get_sibling_count_val (fmB : FileManager) (fid p : DriveId)
    (hp : containsA fmB.drive_ids p = true) (hlive : fmB.handlesLive = true) :
    ∃ o, fmB.get_sibling_count (.driveId fid) (.driveId p) = .val o := by
  unfold FileManager.get_sibling_count
  obtain ⟨o1, ho1⟩ := get_file_driveId_val fmB fid
  rw [ho1]
  cases o1 with
  | none => exact ⟨_, rfl⟩
  | some file =>
    dsimp only
    obtain ⟨o2, ho2⟩ := get_children_known_val fmB p hp hlive
    rw [ho2]
    cases o2 with
    | none => exact ⟨_, rfl⟩
    | some kids => exact ⟨_, rfl⟩

/-- The duplicate-suffix recompute tail of `move_locally` never panics
under the same conditions. -/
theorem move_tail_val (fmB : FileManager) (fid p : DriveId)
    (hp : containsA fmB.drive_ids p = true) (hlive : fmB.handlesLive = true) :
    ∃ out,
      (match fmB.get_sibling_count (.driveId fid) (.driveId p) with
        | .panicked => (.panicked : OpResult)
        | .val (.error e) => .val (.error e, fmB)
        | .val (.ok count) =>
          match fmB.get_file (.driveId fid) with
          | .panicked => .panicked
          | .val none => .val (.error "Cannot find file", fmB)
          | .val (some file) =>
            let file :=
              if count > 1 then { file with identical_name_id := some count }
              else { file with identical_name_id := none }
            .val (.ok (), { fmB with files := insertA fmB.files file.inode file })) =
        .val out := by
  obtain ⟨o, ho⟩ := get_sibling_count_val fmB fid p hp hlive
  rw [ho]
  cases o with
  | error e => exact ⟨_, rfl⟩
  | ok count =>
    dsimp only
    obtain ⟨o1, ho1⟩ := get_file_driveId_val fmB fid
    rw [ho1]
    cases o1 with
    | none => exact ⟨_, rfl⟩
    | some file => exact ⟨_, rfl⟩

/-- A local reparenting move between known remote ids with live handles
cannot panic. -/
theorem move_locally_driveId_val (fm : FileManager) (fid p : DriveId)
    (h1 : containsA fm.drive_ids fid = true) (h2 : containsA fm.drive_ids p = true)
    (hlive : fm.handlesLive = true) :
    ∃ out, fm.move_locally (.driveId fid) (.driveId p) = .val out := by
  unfold FileManager.move_locally
  rw [get_node_id_known_val fm fid h1]
  cases ho1 : (lookupA fm.drive_ids fid).bind fm.node_id_of_inode with
  | none => exact ⟨_, rfl⟩
  | some current_node =>
    dsimp only
    rw [get_node_id_known_val fm p h2]
    cases ho2 : (lookupA fm.drive_ids p).bind fm.node_id_of_inode with
    | none => exact ⟨_, rfl⟩
    | some target_node =>
      dsimp only
      cases ho3 : fm.tree.move_node current_node target_node with
      | error e => exact ⟨_, rfl⟩
      | ok tree =>
        dsimp only
        split
        · exact move_tail_val _ fid p h2
            (handlesLive_after_move fm tree current_node target_node ho3 hlive)
        · exact ⟨_, rfl⟩

/-- The reparent tail of the sync loop: errors are swallowed, so with a
known target parent and live handles it always yields `Ok`. -/
theorem reparent_tail_val (fmB : FileManager) (fid p : DriveId)
    (h1 : containsA fmB.drive_ids fid = true) (h2 : containsA fmB.drive_ids p = true)
    (hlive : fmB.handlesLive = true) :
    ∃ fm', (match fmB.move_locally (.driveId fid) (.driveId p) with
            | .panicked => (.panicked : OpResult)
            | .val (_, fm) => .val (.ok (), fm)) = .val (.ok (), fm') := by
  obtain ⟨out, hout⟩ := move_locally_driveId_val fmB fid p h1 h2 hlive
  obtain ⟨r2, fm2⟩ := out
  rw [hout]
  exact ⟨fm2, rfl⟩

/-- C2 (amended): for a change whose remote id is already known, the
trashing, removal and reparenting steps swallow their errors: the
change yields `Ok` (the reparent case additionally needs the newly
named parent to be known, otherwise its resolution panics), and the
loop then proceeds to the next change.  A failure while adding a newly
reported file, by contrast, aborts the whole loop (shown by the
counterexample, where it panics on the unknown parent). -/
theorem sync_swallows_known_change_errors
    (fm : FileManager) (c : Change) (f : DriveFile) (fid : DriveId)
    (hf : c.file = some f) (hid : c.file_id = some fid)
    (hknown : containsA fm.drive_ids fid = true)
    (hlive : fm.handlesLive = true)
    (hcase : f.trashed = some true ∨ c.removed = some true ∨
      (∃ p, f.firstParent = some p ∧ containsA fm.drive_ids p = true)) :
    ∃ fm', fm.processChange c = .val (.ok (), fm') ∧
      ∀ rest, fm.processChanges (c :: rest) = fm'.processChanges rest := by
  have hnew : fm.processChangeNew fid f = .val (.ok (), fm) := by
    unfold FileManager.processChangeNew
    rw [show fm.contains (.driveId fid) = .val (containsA fm.drive_ids fid) from rfl, hknown]
  have happ : ∃ fm', fm.processChangeApply fid f c = .val (.ok (), fm') := by
    unfold FileManager.processChangeApply
    by_cases ht : f.trashed = some true
    · rw [if_pos ht]
      obtain ⟨out, hout⟩ := move_file_to_trash_false_val fm fid hknown
      obtain ⟨r2, fm2⟩ := out
      rw [hout]
      exact ⟨fm2, rfl⟩
    · rw [if_neg ht]
      by_cases hrm : c.removed = some true
      · rw [if_pos hrm]
        obtain ⟨out, hout⟩ := delete_locally_driveId_val fm fid hknown
        obtain ⟨r2, fm2⟩ := out
        rw [hout]
        exact ⟨fm2, rfl⟩
      · rw [if_neg hrm]
        obtain ⟨o1, ho1⟩ := get_file_driveId_val fm fid
        rw [ho1]
        cases o1 with
        | none => exact ⟨fm, rfl⟩
        | some f0 =>
          dsimp only
          rcases hcase with h | h | ⟨p, hp, hpk⟩
          · exact absurd h ht
          · exact absurd h hrm
          · rw [show (File.from_drive_file f0.inode f
                fm.add_extensions_to_special_files).drive_parent = some p from
                (from_drive_file_drive_parent _ _ _).trans hp]
            dsimp only
            exact reparent_tail_val _ fid p hknown hpk hlive
  obtain ⟨fm', happ'⟩ := happ
  have hpc : fm.processChange c = .val (.ok (), fm') := by
    unfold FileManager.processChange
    rw [hf, hid]
    dsimp only
    rw [hnew]
    exact happ'
  refine ⟨fm', hpc, ?_⟩
  intro rest
  conv_lhs => rw [FileManager.processChanges]
  rw [hpc]

/-- Witness for `sync_swallows_known_change_errors`: the trashing of X
in the concrete manager is processed without aborting. -/
theorem sync_swallows_known_change_errors_witness :
    ∃ fm', fmC1.processChange changeTrashX = .val (.ok (), fm') ∧
      ∀ rest, fmC1.processChanges (changeTrashX :: rest) = fm'.processChanges rest :=
  sync_swallows_known_change_errors fmC1 changeTrashX
    { id := some "x", dname := some "x.txt", parents := some ["rootid"],
      trashed := some true, mimeType := none } "x"
    (by decide) (by decide) (by decide) (by decide) (Or.inl (by decide))

/-- C2 counterexample: a change stream whose first entry reports a new
file under an unknown parent makes `sync` abort (here by the panic on
the unwrapped parent resolution inside `get_node_id`); the later,
well-formed change is never processed and `sync` does not return `Ok`.
The same well-formed change alone is processed fine. -/
theorem sync_abort_on_unknown_parent_cex :
    fmC2.df.changeResponses = [.ok [changeBad, changeGood]] ∧
    fmC2.sync 100 = .panicked ∧
    fmC2good.sync 100 = .val (.ok (), fmC2goodPost) ∧
    fmC2goodPost.contains (.driveId "n2") = .val true := by
  refine ⟨by decide, by decide, by decide, by decide⟩

/-! ## Claim C7: the projection pass of populate -/

theorem eraseA_fresh {α β : Type} [DecidableEq α] (m : List (α × β)) (a : α)
    (h : lookupA m a = none) : eraseA m a = m := by
  induction m with
  | nil => rfl
  | cons kv rest ih =>
    obtain ⟨k, v⟩ := kv
    by_cases hk : k = a
    · subst hk; simp at h
    · simp [hk] at h
      simp [eraseA, List.filter, hk] at ih ⊢
      exact ih h

theorem insertA_fresh {α β : Type} [DecidableEq α] (m : List (α × β)) (a : α) (b : β)
    (h : lookupA m a = none) : insertA m a b = (a, b) :: m := by
  simp [insertA, eraseA_fresh m a h]

/-- Exact effect of a fresh add under a resolved live parent. -/
theorem add_file_locally_effect (fm : FileManager) (file : File) (pid : FileId)
    (pn : NId) (pnode : TreeNode)
    (hident : file.identical_name_id = none)
    (hfresh : lookupA fm.files file.ino = none)
    (hpn : fm.get_node_id pid = .val (some pn))
    (hvalid : lookupA fm.tree.nodes pn = some pnode) :
    fm.add_file_locally file (some pid) = .val (.ok (),
      { fm with
        tree := { nodes := insertA (insertA fm.tree.nodes pn
                    { pnode with children := pnode.children ++ [fm.tree.nextId] })
                    fm.tree.nextId
                    { data := file.ino, parent := some pn, children := [] },
                  root := fm.tree.root, nextId := fm.tree.nextId + 1 },
        node_ids := insertA fm.node_ids file.ino fm.tree.nextId,
        drive_ids := match file.drive_id with
          | some d => insertA fm.drive_ids d file.ino
          | none => fm.drive_ids,
        files := insertA fm.files file.ino file }) := by
  have hid : ({ file with identical_name_id := none } : File) = file := by
    cases file; simp_all
  have hsc : fm.get_sibling_count (.inode file.inode) pid = .val (.error "Cannot get_file") := by
    unfold FileManager.get_sibling_count FileManager.get_file
    simp [FileManager.get_inode, File.inode, hfresh]
  unfold FileManager.add_file_locally
  dsimp only
  rw [hpn]
  dsimp only
  by_cases hfe : fm.rename_identical_files
  · rw [if_pos (by rw [hfe]), hsc]
    dsimp only
    rw [if_neg (by decide), hid]
    unfold Tree.insertUnder
    rw [hvalid]
    rfl
  · rw [if_neg (by simp [hfe])]
    unfold Tree.insertUnder
    rw [hvalid]
    rfl

theorem lookupA_append {α β : Type} [DecidableEq α] (l1 l2 : List (α × β)) (a : α) :
    lookupA (l1 ++ l2) a =
      match lookupA l1 a with
      | some b => some b
      | none => lookupA l2 a := by
  induction l1 with
  | nil => simp
  | cons kv rest ih =>
    obtain ⟨k, v⟩ := kv
    by_cases hk : k = a <;> simp [hk, ih]

theorem lookupA_revFetched_none (ds : List DriveFile) (flag : Bool) (k : Nat) (x : Inode)
    (hx : ∀ j, j < k → x ≠ 5 + j) : lookupA (revFetched ds flag k) x = none := by
  induction k with
  | zero => rfl
  | succ k ih =>
    unfold revFetched
    have hne : (5 + k : Nat) ≠ x := fun h => hx k (Nat.lt_succ_self k) h.symm
    simp only [lookupA_cons, if_neg hne]
    exact ih (fun j hj => hx j (Nat.lt_succ_of_lt hj))

theorem lookupA_revFetched_hit (ds : List DriveFile) (flag : Bool) (k : Nat) (j : Nat)
    (hj : j < k) :
    lookupA (revFetched ds flag k) (5 + j) =
      some (File.from_drive_file (5 + j) (ds.getD j dfltDrive) flag) := by
  induction k with
  | zero => exact absurd hj (Nat.not_lt_zero j)
  | succ k ih =>
    unfold revFetched
    by_cases hjk : j = k
    · subst hjk; simp
    · have hne : (5 + k : Nat) ≠ 5 + j := by omega
      simp only [lookupA_cons, if_neg hne]
      exact ih (by omega)

/-- `create_special_dirs` on the initial state computes `fmSpecial`. -/
theorem create_special_dirs_spec (df : DriveFacade) (ri ext st : Bool) (si ls : Nat) :
    (fmInit df ri ext st si ls).create_special_dirs =
      .val (.ok (), fmSpecial df ri ext st si ls) := by
  cases ri <;> rfl

/-- `fmSpecial` satisfies the add-phase invariant at `k = 0`. -/
theorem fmSpecial_addInv (df : DriveFacade) (ri ext st : Bool) (si ls : Nat)
    (ds : List DriveFile) (rootId : DriveId)
    (hrid : df.rootIdResp.getD "root" = rootId) :
    AddInv ds rootId ext 0 (fmSpecial df ri ext st si ls) := by
  refine ⟨?_, ?_, ?_, ?_, ?_, ?_, ?_, ?_, ?_, ?_, ?_, ?_, ?_, ?_, ?_⟩
  · simp [fmSpecial, revFetched, hrid]
  · rfl
  · rfl
  · rfl
  · intro j hj; exact absurd hj (Nat.not_lt_zero j)
  · intro j hj
    show lookupA [(ORPHANS_INODE, 2), (SHARED_INODE, 1), (ROOT_INODE, 0)] (5 + j) = none
    simp [ORPHANS_INODE, SHARED_INODE, ROOT_INODE, lookupA,
      show (4 : Nat) ≠ 5 + j by omega, show (3 : Nat) ≠ 5 + j by omega,
      show (1 : Nat) ≠ 5 + j by omega]
  · show lookupA [(df.rootIdResp.getD "root", 1)] rootId = some 1
    simp [hrid, lookupA]
  · intro j hj; exact absurd hj (Nat.not_lt_zero j)
  · intro p hp _
    show lookupA [(df.rootIdResp.getD "root", 1)] p = none
    simp [hrid, lookupA]
    exact fun h => absurd h.symm hp
  · rfl
  · rfl
  · exact ⟨[1, 2], rfl⟩
  · exact ⟨[], rfl⟩
  · exact ⟨[], rfl⟩
  · intro j hj; exact absurd hj (Nat.not_lt_zero j)

/-- One bulk-add step preserves the add-phase invariant. -/
theorem addInv_step (ds : List DriveFile) (rootId : DriveId) (flag : Bool) (k : Nat)
    (S : FileManager) (inv : AddInv ds rootId flag k S)
    (hid : (ds.getD k dfltDrive).id = some (did ds k))
    (hnroot : did ds k ≠ rootId)
    (hdistinct : ∀ j, j < k → did ds j ≠ did ds k) :
    ∃ S', S.add_file_locally (File.from_drive_file (5 + k) (ds.getD k dfltDrive) flag)
        (some (.inode ORPHANS_INODE)) = .val (.ok (), S') ∧
      AddInv ds rootId flag (k + 1) S' ∧
      S'.rename_identical_files = S.rename_identical_files := by
  obtain ⟨ch2, hch2⟩ := inv.t2
  have hnolow : ∀ j, j < k → (5 + k : Nat) ≠ 5 + j := fun j hj => by omega
  have hrevnone := lookupA_revFetched_none ds flag k (5 + k) hnolow
  have hfresh : lookupA S.files (5 + k) = none := by
    rw [inv.files_eq, lookupA_append, hrevnone]
    show lookupA (specialFiles rootId) (5 + k) = none
    simp [specialFiles, lookupA, ORPHANS_INODE, SHARED_INODE, ROOT_INODE,
      show (4 : Nat) ≠ 5 + k by omega, show (3 : Nat) ≠ 5 + k by omega,
      show (1 : Nat) ≠ 5 + k by omega]
  have hpn : S.get_node_id (.inode ORPHANS_INODE) = .val (some 2) := by
    show PRes.val (S.node_id_of_inode ORPHANS_INODE) = PRes.val (some 2)
    rw [show S.node_id_of_inode ORPHANS_INODE = lookupA S.node_ids ORPHANS_INODE from rfl,
      inv.nid_orph]
  have heff := add_file_locally_effect S
    (File.from_drive_file (5 + k) (ds.getD k dfltDrive) flag) (.inode ORPHANS_INODE)
    2 ⟨ORPHANS_INODE, some 0, ch2⟩ rfl hfresh hpn hch2
  have hdid : (File.from_drive_file (5 + k) (ds.getD k dfltDrive) flag).drive_id
      = some (did ds k) := hid
  rw [hdid] at heff
  simp only [show (File.from_drive_file (5 + k) (ds.getD k dfltDrive) flag).ino = 5 + k
    from rfl] at heff
  refine ⟨_, heff, ?_, rfl⟩
  have hnext : S.tree.nextId = 3 + k := inv.tree_next
  constructor
  case files_eq =>
    show insertA S.files (5 + k) _ = _
    rw [insertA_fresh _ _ _ hfresh, inv.files_eq]
    rfl
  case nid_root =>
    show lookupA (insertA S.node_ids (5 + k) S.tree.nextId) ROOT_INODE = some 0
    rw [lookupA_insertA_ne _ (5 + k) ROOT_INODE _ (by unfold ROOT_INODE; omega)]
    exact inv.nid_root
  case nid_shared =>
    show lookupA (insertA S.node_ids (5 + k) S.tree.nextId) SHARED_INODE = some 1
    rw [lookupA_insertA_ne _ (5 + k) SHARED_INODE _ (by unfold SHARED_INODE; omega)]
    exact inv.nid_shared
  case nid_orph =>
    show lookupA (insertA S.node_ids (5 + k) S.tree.nextId) ORPHANS_INODE = some 2
    rw [lookupA_insertA_ne _ (5 + k) ORPHANS_INODE _ (by unfold ORPHANS_INODE; omega)]
    exact inv.nid_orph
  case nid_fetched =>
    intro j hj
    show lookupA (insertA S.node_ids (5 + k) S.tree.nextId) (5 + j) = some (3 + j)
    by_cases hjk : j = k
    · subst hjk
      rw [lookupA_insertA_self, hnext]
    · rw [lookupA_insertA_ne _ (5 + k) (5 + j) _ (by omega)]
      exact inv.nid_fetched j (by omega)
  case nid_fresh =>
    intro j hj
    show lookupA (insertA S.node_ids (5 + k) S.tree.nextId) (5 + j) = none
    rw [lookupA_insertA_ne _ (5 + k) (5 + j) _ (by omega)]
    exact inv.nid_fresh j (by omega)
  case did_root =>
    show lookupA (insertA S.drive_ids (did ds k) (5 + k)) rootId = some 1
    rw [lookupA_insertA_ne _ (did ds k) rootId _ hnroot]
    exact inv.did_root
  case did_fetched =>
    intro j hj
    show lookupA (insertA S.drive_ids (did ds k) (5 + k)) (did ds j) = some (5 + j)
    by_cases hjk : j = k
    · subst hjk; rw [lookupA_insertA_self]
    · rw [lookupA_insertA_ne _ (did ds k) (did ds j) _
        (fun h => (hdistinct j (by omega)) h.symm)]
      exact inv.did_fetched j (by omega)
  case did_none =>
    intro p hp hall
    show lookupA (insertA S.drive_ids (did ds k) (5 + k)) p = none
    rw [lookupA_insertA_ne _ (did ds k) p _ (hall k (Nat.lt_succ_self k))]
    exact inv.did_none p hp (fun j hj => hall j (Nat.lt_succ_of_lt hj))
  case tree_root => exact inv.tree_root
  case tree_next =>
    show S.tree.nextId + 1 = 3 + (k + 1)
    rw [hnext]
    show (3 : Nat) + k + 1 = 3 + (k + 1)
    omega
  case t0 =>
    obtain ⟨ch0, hch0⟩ := inv.t0
    refine ⟨ch0, ?_⟩
    show lookupA (insertA (insertA S.tree.nodes 2 _) S.tree.nextId _) 0 = _
    rw [lookupA_insertA_ne _ S.tree.nextId 0 _
        (by rw [hnext]; show (3 : Nat) + k ≠ 0; omega),
      lookupA_insertA_ne _ 2 0 _ (by decide)]
    exact hch0
  case t1 =>
    obtain ⟨ch1, hch1⟩ := inv.t1
    refine ⟨ch1, ?_⟩
    show lookupA (insertA (insertA S.tree.nodes 2 _) S.tree.nextId _) 1 = _
    rw [lookupA_insertA_ne _ S.tree.nextId 1 _
        (by rw [hnext]; show (3 : Nat) + k ≠ 1; omega),
      lookupA_insertA_ne _ 2 1 _ (by decide)]
    exact hch1
  case t2 =>
    refine ⟨ch2 ++ [S.tree.nextId], ?_⟩
    show lookupA (insertA (insertA S.tree.nodes 2 _) S.tree.nextId _) 2 = _
    rw [lookupA_insertA_ne _ S.tree.nextId 2 _
        (by rw [hnext]; show (3 : Nat) + k ≠ 2; omega),
      lookupA_insertA_self]
  case tj =>
    intro j hj
    by_cases hjk : j = k
    · subst hjk
      refine ⟨[], ?_⟩
      show lookupA (insertA (insertA S.tree.nodes 2 _) S.tree.nextId _) (3 + j) = _
      rw [hnext, lookupA_insertA_self]
    · obtain ⟨chj, hchj⟩ := inv.tj j (by omega)
      refine ⟨chj, ?_⟩
      show lookupA (insertA (insertA S.tree.nodes 2 _) S.tree.nextId _) (3 + j) = _
      rw [lookupA_insertA_ne _ S.tree.nextId (3 + j) _
          (by rw [hnext]; show (3 : Nat) + k ≠ 3 + j; omega),
        lookupA_insertA_ne _ 2 (3 + j) _ (by show (2 : Nat) ≠ 3 + j; omega)]
      exact hchj

/-- The inode-assignment pass, one step. -/
theorem assignInodes_cons (flag : Bool) (last : Inode) (d : DriveFile)
    (rest : List DriveFile) :
    FileManager.assignInodes flag last (d :: rest) =
      (File.from_drive_file (last + 1) d flag ::
        (FileManager.assignInodes flag (last + 1) rest).1,
       (FileManager.assignInodes flag (last + 1) rest).2) := by
  cases hr : FileManager.assignInodes flag (last + 1) rest with
  | mk fs last2 =>
    unfold FileManager.assignInodes
    rw [hr]

/-- The bulk-add loop establishes the invariant at the full length. -/
theorem addAll_inv (rootId : DriveId) (flag : Bool) (ds : List DriveFile)
    (hids : ∀ j, j < ds.length → (ds.getD j dfltDrive).id = some (did ds j))
    (hroots : ∀ j, j < ds.length → did ds j ≠ rootId)
    (hdist : ∀ j1 j2, j1 < ds.length → j2 < ds.length → did ds j1 = did ds j2 → j1 = j2) :
    ∀ (tail : List DriveFile) (k : Nat) (S : FileManager),
      k + tail.length = ds.length →
      (∀ i, i < tail.length → tail.getD i dfltDrive = ds.getD (k + i) dfltDrive) →
      AddInv ds rootId flag k S →
      ∃ S', S.addAllUnderOrphans (FileManager.assignInodes flag (4 + k) tail).1
          = .val (.ok (), S') ∧ AddInv ds rootId flag ds.length S' ∧
          S'.rename_identical_files = S.rename_identical_files := by
  intro tail
  induction tail with
  | nil =>
    intro k S hlen htail inv
    refine ⟨S, rfl, ?_, rfl⟩
    have hk : k = ds.length := by simpa using hlen
    rwa [hk] at inv
  | cons d rest ih =>
    intro k S hlen htail inv
    simp only [List.length_cons] at hlen
    have hk : k < ds.length := by omega
    have hd : d = ds.getD k dfltDrive := by
      have h0 := htail 0 (by simp)
      simpa using h0
    obtain ⟨S', hstep, inv', hri1⟩ := addInv_step ds rootId flag k S inv
      (hids k hk) (hroots k hk)
      (fun j hj he => absurd (hdist j k (by omega) hk he) (by omega))
    have htail' : ∀ i, i < rest.length → rest.getD i dfltDrive = ds.getD (k + 1 + i) dfltDrive := by
      intro i hi
      have h1 := htail (i + 1) (by simp; omega)
      rw [List.getD_cons_succ] at h1
      rw [h1]
      have harg : k + (i + 1) = k + 1 + i := by omega
      rw [harg]
    obtain ⟨S2, hrest, inv2, hri2⟩ := ih (k + 1) S' (by omega) htail' inv'
    refine ⟨S2, ?_, inv2, hri2.trans hri1⟩
    rw [assignInodes_cons]
    show (match S.add_file_locally (File.from_drive_file (4 + k + 1) d flag)
        (some (.inode ORPHANS_INODE)) with
      | PRes.panicked => (PRes.panicked : OpResult)
      | PRes.val (Except.error e, fm) => PRes.val (Except.error e, fm)
      | PRes.val (Except.ok _, fm) =>
        fm.addAllUnderOrphans (FileManager.assignInodes flag (4 + k + 1) rest).1) =
      PRes.val (Except.ok (), S2)
    rw [show (5 + k : Inode) = 4 + k + 1 from by
      show (5 : Nat) + k = 4 + k + 1; omega] at hstep
    rw [hd, hstep]
    exact hrest

/-- The projection filter is the filterMap of `projFn`. -/
theorem projectionMoves_eq_filterMap (fm : FileManager) :
    fm.projectionMoves = List.filterMap (projFn fm.drive_ids) fm.files := rfl

/-- `movesSpec` is the filterMap of `specMoveFn` over the reversed range. -/
theorem movesSpec_eq_filterMap (ds : List DriveFile) (rootId : DriveId) (n : Nat) :
    movesSpec ds rootId n =
      (List.range n).reverse.filterMap (specMoveFn ds rootId n) := rfl

/-- A fetched file carries its descriptor, so its recorded parent is the
descriptor head parent. -/
theorem drive_parent_from_drive_file (i : Inode) (d : DriveFile) (flag : Bool) :
    (File.from_drive_file i d flag).drive_parent = d.firstParent := rfl

/-- After all adds, the drive-id map knows exactly the root id and the
fetched ids. -/
theorem containsA_drive_ids (ds : List DriveFile) (rootId : DriveId) (flag : Bool)
    (n : Nat) (S : FileManager) (inv : AddInv ds rootId flag n S) :
    ∀ p, containsA S.drive_ids p = knownParent ds rootId n p := by
  intro p
  unfold containsA knownParent
  by_cases hp : p = rootId
  · subst hp
    rw [inv.did_root]
    simp
  · rw [show (p == rootId) = false from by simpa using hp, Bool.false_or]
    by_cases hex : ∃ j, j < n ∧ did ds j = p
    · obtain ⟨j, hj, he⟩ := hex
      rw [show lookupA S.drive_ids p = some (5 + j) from he ▸ inv.did_fetched j hj]
      simp only [Option.isSome_some]
      symm
      rw [List.any_eq_true]
      exact ⟨j, List.mem_range.mpr hj, by simpa using he⟩
    · push_neg at hex
      rw [inv.did_none p hp (fun j hj => hex j hj)]
      simp only [Option.isSome_none]
      symm
      rw [List.any_eq_false]
      intro i hi
      simp only [beq_iff_eq]
      exact hex i (List.mem_range.mp hi)

/-- On a fetched entry, the projection filter computes what the spec
filter computes. -/
theorem projFn_spec (dids : List (DriveId × Inode)) (ds : List DriveFile)
    (rootId : DriveId) (n : Nat) (flag : Bool) (k : Nat)
    (hc : ∀ p, containsA dids p = knownParent ds rootId n p) :
    projFn dids (5 + k, File.from_drive_file (5 + k) (ds.getD k dfltDrive) flag)
      = specMoveFn ds rootId n k := by
  unfold projFn specMoveFn
  dsimp only
  rw [drive_parent_from_drive_file]
  cases hfp : (ds.getD k dfltDrive).firstParent with
  | none => rfl
  | some p =>
    dsimp only
    rw [hc p]

/-- The projection filter over the fetched block is the spec move list. -/
theorem filterMap_revFetched (ds : List DriveFile) (flag : Bool) (rootId : DriveId)
    (n : Nat) (dids : List (DriveId × Inode))
    (hc : ∀ p, containsA dids p = knownParent ds rootId n p) :
    ∀ k, List.filterMap (projFn dids) (revFetched ds flag k)
      = (List.range k).reverse.filterMap (specMoveFn ds rootId n) := by
  intro k
  induction k with
  | zero => rfl
  | succ k ih =>
    rw [show revFetched ds flag (k + 1)
        = (5 + k, File.from_drive_file (5 + k) (ds.getD k dfltDrive) flag)
          :: revFetched ds flag k from rfl,
      List.filterMap_cons, projFn_spec dids ds rootId n flag k hc,
      show (List.range (k + 1)).reverse = k :: (List.range k).reverse from by
        rw [List.range_succ, List.reverse_append]; rfl,
      List.filterMap_cons, ih]

/-- The special directories contribute no move. -/
theorem filterMap_specials (dids : List (DriveId × Inode)) (rootId : DriveId) :
    List.filterMap (projFn dids) (specialFiles rootId) = [] := rfl

/-- After the whole add phase the projection move list is `movesSpec`. -/
theorem projectionMoves_spec (ds : List DriveFile) (rootId : DriveId) (flag : Bool)
    (n : Nat) (S : FileManager) (inv : AddInv ds rootId flag n S)
    (hn : n = ds.length) :
    S.projectionMoves = movesSpec ds rootId n := by
  rw [projectionMoves_eq_filterMap, movesSpec_eq_filterMap]
  subst hn
  rw [inv.files_eq, List.filterMap_append,
    filterMap_revFetched ds flag rootId ds.length S.drive_ids
      (containsA_drive_ids ds rootId flag ds.length S inv) ds.length,
    filterMap_specials, List.append_nil]

/-- One fuel step of the ancestor walk. -/
theorem subtreeRootBetween_succ (t : Tree) (fuel : Nat) (m anc : NId) :
    t.subtreeRootBetween (fuel + 1) m anc =
      match t.get m with
      | none => none
      | some node =>
        match node.parent with
        | none => none
        | some p => if p = anc then some m else t.subtreeRootBetween fuel p anc := rfl

/-- Away from the index being moved, the recorded parent does not
change. -/
theorem pmt_step (ds : List DriveFile) (rootId : DriveId) (n j m : Nat)
    (hne : m ≠ j) : pmt ds rootId n j m = pmt ds rootId n (j + 1) m := by
  unfold pmt
  by_cases h : j ≤ m
  · rw [if_pos h, if_pos (by omega)]
  · rw [if_neg h, if_neg (by omega)]

/-- The projected parent node is the root node, the Orphans node, or a
fetched node of strictly smaller rank. -/
theorem projTarget_cases (ds : List DriveFile) (rootId : DriveId) (n : Nat)
    (rank : Nat → Nat) (hrank : RankOk ds n rank) (m : Nat) (hm : m < n) :
    projTarget ds rootId n m = 2 ∨ projTarget ds rootId n m = 0 ∨
      ∃ i, i < n ∧ projTarget ds rootId n m = 3 + i ∧ rank i < rank m := by
  unfold projTarget
  cases hfp : (ds.getD m dfltDrive).firstParent with
  | none => exact Or.inl rfl
  | some p =>
    dsimp only
    by_cases hkp : knownParent ds rootId n p = true
    · rw [if_pos hkp]
      unfold targetNodeOf
      by_cases hpr : p = rootId
      · exact Or.inr (Or.inl (by rw [if_pos hpr]))
      · rw [if_neg hpr]
        cases hfind : (List.range n).find? (fun i => did ds i == p) with
        | none =>
          exfalso
          unfold knownParent at hkp
          rw [Bool.or_eq_true] at hkp
          cases hkp with
          | inl h => exact hpr (by simpa using h)
          | inr h =>
            obtain ⟨i, hi, hbeq⟩ := List.any_eq_true.mp h
            exact absurd hbeq (by simpa using List.find?_eq_none.mp hfind i hi)
        | some i =>
          have hmem := List.mem_range.mp (List.mem_of_find?_eq_some hfind)
          have hdid : did ds i = p := by simpa using List.find?_some hfind
          refine Or.inr (Or.inr ⟨i, hmem, rfl, ?_⟩)
          exact hrank m i hm hmem (by rw [hfp, hdid])
    · rw [if_neg hkp]
      exact Or.inl rfl

/-- The completed add phase starts the move phase with everything under
Orphans. -/
theorem moveInv_of_addInv (ds : List DriveFile) (rootId : DriveId) (flag : Bool)
    (n : Nat) (S : FileManager) (inv : AddInv ds rootId flag n S) :
    MoveInv ds rootId flag n n S := by
  refine ⟨inv.files_eq, inv.nid_root, inv.nid_fetched, inv.did_root, inv.did_fetched,
    inv.tree_root, inv.t0, inv.t1, inv.t2, ?_⟩
  intro m hm
  obtain ⟨ch, hch⟩ := inv.tj m hm
  refine ⟨ch, ?_⟩
  rw [show pmt ds rootId n n m = 2 from by unfold pmt; rw [if_neg (by omega)]]
  exact hch

/-- A pending index whose projected parent is Orphans needs no move. -/
theorem moveInv_skip (ds : List DriveFile) (rootId : DriveId) (flag : Bool)
    (n j : Nat) (T : FileManager) (inv : MoveInv ds rootId flag n (j + 1) T)
    (hpt : projTarget ds rootId n j = 2) :
    MoveInv ds rootId flag n j T := by
  refine ⟨inv.files_eq, inv.nid_root, inv.nid_fetched, inv.did_root, inv.did_fetched,
    inv.tree_root, inv.s0, inv.s1, inv.s2, ?_⟩
  intro m hm
  obtain ⟨ch, hch⟩ := inv.sj m hm
  refine ⟨ch, ?_⟩
  by_cases hmj : m = j
  · subst hmj
    rw [show pmt ds rootId n m m = 2 from by
      unfold pmt; rw [if_pos (Nat.le_refl m)]; exact hpt]
    rw [show pmt ds rootId n (m + 1) m = 2 from by
      unfold pmt; rw [if_neg (by omega)]] at hch
    exact hch
  · rw [pmt_step ds rootId n j m hmj]
    exact hch

/-- From the root node, the Orphans node, or any fetched node of rank
below `rank j`, the ancestor walk never meets the node of index `j`:
the move target is never inside the moved subtree. -/
theorem noAnc (ds : List DriveFile) (rootId : DriveId) (flag : Bool) (n j : Nat)
    (rank : Nat → Nat) (T : FileManager)
    (inv : MoveInv ds rootId flag n (j + 1) T)
    (hrank : RankOk ds n rank) :
    ∀ fuel m, (m = 0 ∨ m = 2 ∨ ∃ i, i < n ∧ m = 3 + i ∧ rank i < rank j) →
      T.tree.subtreeRootBetween fuel m (3 + j) = none := by
  intro fuel
  induction fuel with
  | zero => intro m _; rfl
  | succ fuel ih =>
    intro m hm
    rw [subtreeRootBetween_succ]
    rcases hm with h0 | h2 | ⟨i, hi, hmi, hri⟩
    · subst h0
      obtain ⟨ch0, hch0⟩ := inv.s0
      rw [hch0]
    · subst h2
      obtain ⟨ch2, hch2⟩ := inv.s2
      rw [hch2]
      dsimp only
      rw [if_neg (show ¬((0 : NId) = 3 + j) from by
        intro h; have h2 : (0 : Nat) = 3 + j := h; omega)]
      exact ih 0 (Or.inl rfl)
    · subst hmi
      obtain ⟨chi, hchi⟩ := inv.sj i hi
      by_cases hij : j + 1 ≤ i
      · rw [show pmt ds rootId n (j + 1) i = projTarget ds rootId n i from by
          unfold pmt; rw [if_pos hij]] at hchi
        rcases projTarget_cases ds rootId n rank hrank i hi with hc | hc | ⟨i2, hi2, hc, hr2⟩
        · rw [hc] at hchi
          rw [hchi]
          dsimp only
          rw [if_neg (show ¬((2 : NId) = 3 + j) from by
            intro h; have h2 : (2 : Nat) = 3 + j := h; omega)]
          exact ih 2 (Or.inr (Or.inl rfl))
        · rw [hc] at hchi
          rw [hchi]
          dsimp only
          rw [if_neg (show ¬((0 : NId) = 3 + j) from by
            intro h; have h2 : (0 : Nat) = 3 + j := h; omega)]
          exact ih 0 (Or.inl rfl)
        · rw [hc] at hchi
          rw [hchi]
          dsimp only
          have hrj : rank i2 < rank j := Nat.lt_trans hr2 hri
          rw [if_neg (show ¬((3 + i2 : NId) = 3 + j) from by
            intro h
            have h2 : (3 : Nat) + i2 = 3 + j := h
            have h3 : i2 = j := by omega
            rw [h3] at hrj
            exact Nat.lt_irrefl _ hrj)]
          exact ih (3 + i2) (Or.inr (Or.inr ⟨i2, hi2, rfl, hrj⟩))
      · rw [show pmt ds rootId n (j + 1) i = 2 from by
          unfold pmt; rw [if_neg hij]] at hchi
        rw [hchi]
        dsimp only
        rw [if_neg (show ¬((2 : NId) = 3 + j) from by
          intro h; have h2 : (2 : Nat) = 3 + j := h; omega)]
        exact ih 2 (Or.inr (Or.inl rfl))

/-- Effect of `move_node` when the target is outside the moved subtree:
the moved node is re-parented, the old and new parents change only in
their children lists, and every other slot is untouched. -/
theorem move_node_plain (t : Tree) (nj tgt : NId) (d : Inode) (ch : List NId)
    (q : NId) (qn tn : TreeNode)
    (hn : lookupA t.nodes nj = some ⟨d, some q, ch⟩)
    (hq : lookupA t.nodes q = some qn)
    (htgt : lookupA t.nodes tgt = some tn)
    (hsr : t.subtreeRootBetween t.nodes.length tgt nj = none)
    (hne1 : tgt ≠ q) (hne2 : tgt ≠ nj) (hne3 : nj ≠ q) :
    ∃ t', t.move_node nj tgt = .ok t' ∧
      t'.root = t.root ∧
      lookupA t'.nodes nj = some ⟨d, some tgt, ch⟩ ∧
      (∀ m, m ≠ nj → m ≠ q → m ≠ tgt → lookupA t'.nodes m = lookupA t.nodes m) ∧
      (∃ chq, lookupA t'.nodes q = some { qn with children := chq }) ∧
      (∃ cht, lookupA t'.nodes tgt = some { tn with children := cht }) := by
  have hdet : t.detach nj = { t with nodes := detachedNodes t nj q qn } := by
    unfold Tree.detach detachedNodes
    rw [hn]
    dsimp only
    rw [hq]
  have hlk1 : lookupA (t.detach nj).nodes tgt = some tn := by
    rw [hdet]
    show lookupA (detachedNodes t nj q qn) tgt = some tn
    unfold detachedNodes
    exact (lookupA_insertA_ne _ q tgt _ (fun h => hne1 h.symm)).trans htgt
  have hatt : (t.detach nj).attach nj tgt =
      { t with nodes := movedNodes t nj tgt q d ch qn tn } := by
    unfold Tree.attach
    rw [hlk1]
    dsimp only
    unfold Tree.setParent
    rw [hdet]
    dsimp only
    unfold movedNodes detachedNodes
    rw [lookupA_insertA_ne _ tgt nj _ hne2, lookupA_insertA_ne _ q nj _ (fun h => hne3 h.symm),
      hn]
  have hmv : t.move_node nj tgt = .ok ((t.detach nj).attach nj tgt) := by
    unfold Tree.move_node
    rw [hn, htgt]
    dsimp only
    rw [hsr]
  refine ⟨_, hmv, ?_, ?_, ?_, ?_, ?_⟩
  · rw [hatt]
  · rw [hatt]
    show lookupA (movedNodes t nj tgt q d ch qn tn) nj = _
    unfold movedNodes
    exact lookupA_insertA_self _ nj _
  · intro m hm1 hm2 hm3
    rw [hatt]
    show lookupA (movedNodes t nj tgt q d ch qn tn) m = _
    unfold movedNodes detachedNodes
    rw [lookupA_insertA_ne _ nj m _ (fun h => hm1 h.symm),
      lookupA_insertA_ne _ tgt m _ (fun h => hm3 h.symm),
      lookupA_insertA_ne _ q m _ (fun h => hm2 h.symm)]
  · refine ⟨qn.children.filter (fun c => decide (c ≠ nj)), ?_⟩
    rw [hatt]
    show lookupA (movedNodes t nj tgt q d ch qn tn) q = _
    unfold movedNodes detachedNodes
    rw [lookupA_insertA_ne _ nj q _ hne3,
      lookupA_insertA_ne _ tgt q _ hne1, lookupA_insertA_self]
  · refine ⟨tn.children ++ [nj], ?_⟩
    rw [hatt]
    show lookupA (movedNodes t nj tgt q d ch qn tn) tgt = _
    unfold movedNodes
    rw [lookupA_insertA_ne _ nj tgt _ (fun h => hne2 h.symm), lookupA_insertA_self]

/-- A locally known parent id resolves, through the drive-id and
node-id maps, to its owner node. -/
theorem target_resolves (ds : List DriveFile) (rootId : DriveId) (flag : Bool)
    (n k : Nat) (T : FileManager) (inv : MoveInv ds rootId flag n k T)
    (p : DriveId) (hkp : knownParent ds rootId n p = true) :
    T.get_node_id (.driveId p) = .val (some (targetNodeOf ds rootId n p)) ∧
    (targetNodeOf ds rootId n p = 0 ∨
      ∃ i, i < n ∧ did ds i = p ∧ targetNodeOf ds rootId n p = 3 + i) := by
  by_cases hpr : p = rootId
  · have htv : targetNodeOf ds rootId n p = 0 := by
      unfold targetNodeOf; rw [if_pos hpr]
    refine ⟨?_, Or.inl htv⟩
    show (match lookupA T.drive_ids p with
      | none => PRes.panicked
      | some i => PRes.val (T.node_id_of_inode i)) = _
    rw [show lookupA T.drive_ids p = some 1 from by rw [hpr]; exact inv.did_root]
    dsimp only
    rw [show T.node_id_of_inode 1 = lookupA T.node_ids ROOT_INODE from rfl,
      inv.nid_root, htv]
  · cases hfind : (List.range n).find? (fun i => did ds i == p) with
    | none =>
      exfalso
      unfold knownParent at hkp
      rw [Bool.or_eq_true] at hkp
      cases hkp with
      | inl h => exact hpr (by simpa using h)
      | inr h =>
        obtain ⟨i, hi, hbeq⟩ := List.any_eq_true.mp h
        exact absurd hbeq (by simpa using List.find?_eq_none.mp hfind i hi)
    | some i =>
      have hmem := List.mem_range.mp (List.mem_of_find?_eq_some hfind)
      have hdid : did ds i = p := by simpa using List.find?_some hfind
      have htv : targetNodeOf ds rootId n p = 3 + i := by
        unfold targetNodeOf; rw [if_neg hpr, hfind]
      refine ⟨?_, Or.inr ⟨i, hmem, hdid, htv⟩⟩
      show (match lookupA T.drive_ids p with
        | none => PRes.panicked
        | some i => PRes.val (T.node_id_of_inode i)) = _
      rw [show lookupA T.drive_ids p = some (5 + i) from by
        rw [← hdid]; exact inv.did_fetched i hmem]
      dsimp only
      rw [show T.node_id_of_inode (5 + i) = lookupA T.node_ids (5 + i) from rfl,
        inv.nid_fetched i hmem, htv]

/-- One applied move of the projection pass: pending index `j` with a
known parent id is re-parented onto its projected target, and no other
slot changes shape. -/
theorem move_step (ds : List DriveFile) (rootId : DriveId) (flag : Bool)
    (n j : Nat) (rank : Nat → Nat) (T : FileManager) (p : DriveId)
    (inv : MoveInv ds rootId flag n (j + 1) T)
    (hrank : RankOk ds n rank)
    (hri : T.rename_identical_files = false)
    (hj : j < n)
    (hfp : (ds.getD j dfltDrive).firstParent = some p)
    (hkp : knownParent ds rootId n p = true) :
    ∃ T', T.move_locally (.inode (5 + j)) (.driveId p) = .val (.ok (), T')
      ∧ MoveInv ds rootId flag n j T'
      ∧ T'.rename_identical_files = false := by
  have h1 : T.get_node_id (.inode (5 + j)) = .val (some (3 + j)) := by
    show PRes.val (T.node_id_of_inode (5 + j)) = _
    rw [show T.node_id_of_inode (5 + j) = lookupA T.node_ids (5 + j) from rfl,
      inv.nid_fetched j hj]
  obtain ⟨h2, hdisj⟩ := target_resolves ds rootId flag n (j + 1) T inv p hkp
  have hpt : projTarget ds rootId n j = targetNodeOf ds rootId n p := by
    unfold projTarget
    rw [hfp]
    dsimp only
    rw [if_pos hkp]
  obtain ⟨chj, hchj⟩ := inv.sj j hj
  rw [show pmt ds rootId n (j + 1) j = 2 from by
    unfold pmt; rw [if_neg (by omega)]] at hchj
  obtain ⟨ch2, hch2⟩ := inv.s2
  obtain ⟨ch0, hch0⟩ := inv.s0
  obtain ⟨ch1, hch1⟩ := inv.s1
  rcases hdisj with htv | ⟨i, hi, hdid, htv⟩
  · obtain ⟨t', hmvn, hroot, hnjlk, hother, ⟨chq, hq2⟩, ⟨cht, ht0⟩⟩ :=
      move_node_plain T.tree (3 + j) 0 (5 + j) chj 2 ⟨ORPHANS_INODE, some 0, ch2⟩
        ⟨ROOT_INODE, none, ch0⟩ hchj hch2 hch0
        (noAnc ds rootId flag n j rank T inv hrank T.tree.nodes.length 0 (Or.inl rfl))
        (fun h => by have hx : (0 : Nat) = 2 := h; omega)
        (fun h => by have hx : (0 : Nat) = 3 + j := h; omega)
        (fun h => by have hx : (3 : Nat) + j = 2 := h; omega)
    have hml : T.move_locally (.inode (5 + j)) (.driveId p)
        = .val (.ok (), { T with tree := t' }) := by
      unfold FileManager.move_locally
      rw [h1]
      dsimp only
      rw [h2, htv]
      dsimp only
      rw [hmvn]
      dsimp only
      rw [show ({ T with tree := t' } : FileManager).rename_identical_files = false from hri,
        if_neg Bool.false_ne_true]
    refine ⟨_, hml, ⟨inv.files_eq, inv.nid_root, inv.nid_fetched, inv.did_root,
      inv.did_fetched, hroot.trans inv.tree_root, ⟨cht, ht0⟩, ?_, ⟨chq, hq2⟩, ?_⟩, hri⟩
    · refine ⟨ch1, ?_⟩
      show lookupA t'.nodes 1 = _
      rw [hother 1 (fun h => by have hx : (1 : Nat) = 3 + j := h; omega)
        (by decide) (by decide)]
      exact hch1
    · intro m hm
      by_cases hmj : m = j
      · subst hmj
        refine ⟨chj, ?_⟩
        show lookupA t'.nodes (3 + m) = _
        rw [show pmt ds rootId n m m = 0 from by
          unfold pmt; rw [if_pos (Nat.le_refl m), hpt, htv]]
        exact hnjlk
      · obtain ⟨chm, hchm⟩ := inv.sj m hm
        refine ⟨chm, ?_⟩
        show lookupA t'.nodes (3 + m) = _
        rw [hother (3 + m)
          (fun h => hmj (by have hx : (3 : Nat) + m = 3 + j := h; omega))
          (fun h => by have hx : (3 : Nat) + m = 2 := h; omega)
          (fun h => by have hx : (3 : Nat) + m = 0 := h; omega),
          pmt_step ds rootId n j m hmj]
        exact hchm
  · obtain ⟨chi, hchi⟩ := inv.sj i hi
    have hrij : rank i < rank j := hrank j i hj hi (by rw [hfp, hdid])
    have hij : i ≠ j := fun he => by rw [he] at hrij; exact Nat.lt_irrefl _ hrij
    obtain ⟨t', hmvn, hroot, hnjlk, hother, ⟨chq, hq2⟩, ⟨cht, hti⟩⟩ :=
      move_node_plain T.tree (3 + j) (3 + i) (5 + j) chj 2 ⟨ORPHANS_INODE, some 0, ch2⟩
        ⟨5 + i, some (pmt ds rootId n (j + 1) i), chi⟩ hchj hch2 hchi
        (noAnc ds rootId flag n j rank T inv hrank T.tree.nodes.length (3 + i)
          (Or.inr (Or.inr ⟨i, hi, rfl, hrij⟩)))
        (fun h => by have hx : (3 : Nat) + i = 2 := h; omega)
        (fun h => hij (by have hx : (3 : Nat) + i = 3 + j := h; omega))
        (fun h => by have hx : (3 : Nat) + j = 2 := h; omega)
    have hml : T.move_locally (.inode (5 + j)) (.driveId p)
        = .val (.ok (), { T with tree := t' }) := by
      unfold FileManager.move_locally
      rw [h1]
      dsimp only
      rw [h2, htv]
      dsimp only
      rw [hmvn]
      dsimp only
      rw [show ({ T with tree := t' } : FileManager).rename_identical_files = false from hri,
        if_neg Bool.false_ne_true]
    refine ⟨_, hml, ⟨inv.files_eq, inv.nid_root, inv.nid_fetched, inv.did_root,
      inv.did_fetched, hroot.trans inv.tree_root, ?_, ?_, ⟨chq, hq2⟩, ?_⟩, hri⟩
    · refine ⟨ch0, ?_⟩
      show lookupA t'.nodes 0 = _
      rw [hother 0 (fun h => by have hx : (0 : Nat) = 3 + j := h; omega)
        (by decide) (fun h => by have hx : (0 : Nat) = 3 + i := h; omega)]
      exact hch0
    · refine ⟨ch1, ?_⟩
      show lookupA t'.nodes 1 = _
      rw [hother 1 (fun h => by have hx : (1 : Nat) = 3 + j := h; omega)
        (by decide) (fun h => by have hx : (1 : Nat) = 3 + i := h; omega)]
      exact hch1
    · intro m hm
      by_cases hmj : m = j
      · subst hmj
        refine ⟨chj, ?_⟩
        show lookupA t'.nodes (3 + m) = _
        rw [show pmt ds rootId n m m = 3 + i from by
          unfold pmt; rw [if_pos (Nat.le_refl m), hpt, htv]]
        exact hnjlk
      · by_cases hmi : m = i
        · subst hmi
          refine ⟨cht, ?_⟩
          show lookupA t'.nodes (3 + m) = _
          rw [pmt_step ds rootId n j m hmj]
          exact hti
        · obtain ⟨chm, hchm⟩ := inv.sj m hm
          refine ⟨chm, ?_⟩
          show lookupA t'.nodes (3 + m) = _
          rw [hother (3 + m)
            (fun h => hmj (by have hx : (3 : Nat) + m = 3 + j := h; omega))
            (fun h => by have hx : (3 : Nat) + m = 2 := h; omega)
            (fun h => hmi (by have hx : (3 : Nat) + m = 3 + i := h; omega)),
            pmt_step ds rootId n j m hmj]
          exact hchm

/-- The whole move loop of `populate` lands every pending index on its
projected parent. -/
theorem applyMoves_inv (ds : List DriveFile) (rootId : DriveId) (flag : Bool)
    (n : Nat) (rank : Nat → Nat) (hrank : RankOk ds n rank) :
    ∀ k T, k ≤ n → MoveInv ds rootId flag n k T →
      T.rename_identical_files = false →
      ∃ T', T.applyMoves ((List.range k).reverse.filterMap (specMoveFn ds rootId n))
          = .val T' ∧ MoveInv ds rootId flag n 0 T'
        ∧ T'.rename_identical_files = false := by
  intro k
  induction k with
  | zero =>
    intro T _ inv hri
    exact ⟨T, rfl, inv, hri⟩
  | succ k ih =>
    intro T hk inv hri
    rw [show (List.range (k + 1)).reverse = k :: (List.range k).reverse from by
      rw [List.range_succ, List.reverse_append]; rfl, List.filterMap_cons]
    cases hsm : specMoveFn ds rootId n k with
    | none =>
      have hpt : projTarget ds rootId n k = 2 := by
        unfold specMoveFn at hsm
        unfold projTarget
        cases hfp : (ds.getD k dfltDrive).firstParent with
        | none => rfl
        | some p2 =>
          rw [hfp] at hsm
          dsimp only at hsm ⊢
          by_cases hkp : knownParent ds rootId n p2 = true
          · rw [if_pos hkp] at hsm
            exact absurd hsm (by simp)
          · rw [if_neg hkp]
      exact ih T (by omega) (moveInv_skip ds rootId flag n k T inv hpt) hri
    | some mv =>
      have hex : ∃ p2, (ds.getD k dfltDrive).firstParent = some p2
          ∧ knownParent ds rootId n p2 = true
          ∧ mv = (FileId.inode (5 + k), FileId.driveId p2) := by
        unfold specMoveFn at hsm
        cases hfp : (ds.getD k dfltDrive).firstParent with
        | none =>
          rw [hfp] at hsm
          exact absurd hsm (by simp)
        | some p2 =>
          rw [hfp] at hsm
          dsimp only at hsm
          by_cases hkp : knownParent ds rootId n p2 = true
          · rw [if_pos hkp] at hsm
            exact ⟨p2, rfl, hkp, (Option.some.inj hsm).symm⟩
          · rw [if_neg hkp] at hsm
            exact absurd hsm (by simp)
      obtain ⟨p2, hfp, hkp, hmv⟩ := hex
      subst hmv
      obtain ⟨T1, hmv1, inv1, hri1⟩ :=
        move_step ds rootId flag n k rank T p2 inv hrank hri (by omega) hfp hkp
      obtain ⟨T', happ, inv', hri'⟩ := ih T1 (by omega) inv1 hri1
      refine ⟨T', ?_, inv', hri'⟩
      show (match T.move_locally (FileId.inode (5 + k)) (FileId.driveId p2) with
        | PRes.panicked => (PRes.panicked : PRes FileManager)
        | PRes.val (_, fm) =>
          fm.applyMoves ((List.range k).reverse.filterMap (specMoveFn ds rootId n)))
        = PRes.val T'
      rw [hmv1]
      exact happ

/-- C7: for every remote listing consumed at construction — each
descriptor carrying a remote id, the ids distinct from each other and
from the root id, and the listing parent relation acyclic, witnessed by
a rank that drops from a file to the owner of its recorded parent id —
`populate` succeeds, and afterwards every fetched file whose descriptor
names a locally known parent id hangs under that parent's node, while
every other fetched file is a child of the Orphans directory
(`projTarget`); the maps still carry every fetched file.  The single
bulk pass suffices: all files are first added under Orphans, then the
recorded moves are applied once, and the move targets are computed
against the complete map. -/
theorem populate_projection (df : DriveFacade) (ext st : Bool) (si ls : Nat)
    (rootId : DriveId) (rank : Nat → Nat)
    (hrid : df.rootIdResp.getD "root" = rootId)
    (hids : ∀ j, j < df.allFiles.length →
      (df.allFiles.getD j dfltDrive).id = some (did df.allFiles j))
    (hroots : ∀ j, j < df.allFiles.length → did df.allFiles j ≠ rootId)
    (hdist : ∀ j1 j2, j1 < df.allFiles.length → j2 < df.allFiles.length →
      did df.allFiles j1 = did df.allFiles j2 → j1 = j2)
    (hrank : RankOk df.allFiles df.allFiles.length rank) :
    ∃ fm', (fmInit df false ext st si ls).populate = .val (.ok (), fm') ∧
      ∀ j, j < df.allFiles.length →
        lookupA fm'.files (5 + j)
          = some (File.from_drive_file (5 + j) (df.allFiles.getD j dfltDrive) ext) ∧
        lookupA fm'.node_ids (5 + j) = some (3 + j) ∧
        nodeShape fm'.tree (3 + j)
          = some (5 + j, some (projTarget df.allFiles rootId df.allFiles.length j)) := by
  cases ha : FileManager.assignInodes ext 4 df.allFiles with
  | mk fs last2 =>
    have invSp := fmSpecial_addInv df false ext st si ls df.allFiles rootId hrid
    have inv0 : AddInv df.allFiles rootId ext 0
        ({ fmSpecial df false ext st si ls with last_inode := last2 }) :=
      ⟨invSp.files_eq, invSp.nid_root, invSp.nid_shared, invSp.nid_orph,
       invSp.nid_fetched, invSp.nid_fresh, invSp.did_root, invSp.did_fetched,
       invSp.did_none, invSp.tree_root, invSp.tree_next, invSp.t0, invSp.t1,
       invSp.t2, invSp.tj⟩
    obtain ⟨S1, hadd, invA, hriA⟩ := addAll_inv rootId ext df.allFiles hids hroots hdist
      df.allFiles 0 ({ fmSpecial df false ext st si ls with last_inode := last2 })
      (by simp) (fun i hi => by rw [Nat.zero_add]) inv0
    have hadd2 : ({ fmSpecial df false ext st si ls with last_inode := last2
        } : FileManager).addAllUnderOrphans fs = .val (.ok (), S1) := by
      rw [show fs = (FileManager.assignInodes ext 4 df.allFiles).1 from by rw [ha]]
      exact hadd
    have invM := moveInv_of_addInv df.allFiles rootId ext df.allFiles.length S1 invA
    obtain ⟨T', happly, invF, hriF⟩ := applyMoves_inv df.allFiles rootId ext
      df.allFiles.length rank hrank df.allFiles.length S1 (Nat.le_refl _) invM
      (hriA.trans rfl)
    have hproj : S1.applyMoves S1.projectionMoves = .val T' := by
      rw [projectionMoves_spec df.allFiles rootId ext df.allFiles.length S1 invA rfl,
        movesSpec_eq_filterMap]
      exact happly
    refine ⟨T', ?_, ?_⟩
    · unfold FileManager.populate
      rw [create_special_dirs_spec df false ext st si ls]
      dsimp only
      rw [show (fmSpecial df false ext st si ls).add_extensions_to_special_files
          = ext from rfl,
        show (fmSpecial df false ext st si ls).last_inode = 4 from rfl,
        show (fmSpecial df false ext st si ls).df = df from rfl, ha]
      dsimp only
      dsimp only at hadd2
      rw [show (fmSpecial df false ext st si ls).df = df from rfl,
        show (fmSpecial df false ext st si ls).add_extensions_to_special_files
          = ext from rfl] at hadd2
      rw [hadd2]
      show (match S1.applyMoves S1.projectionMoves with
        | PRes.panicked => (PRes.panicked : OpResult)
        | PRes.val fm => PRes.val (Except.ok (), fm)) = PRes.val (Except.ok (), T')
      rw [hproj]
    · intro j hj
      refine ⟨?_, invF.nid_fetched j hj, ?_⟩
      · rw [invF.files_eq, lookupA_append, lookupA_revFetched_hit df.allFiles ext
          df.allFiles.length j hj]
      · obtain ⟨ch, hch⟩ := invF.sj j hj
        unfold nodeShape
        rw [hch]
        rw [show pmt df.allFiles rootId df.allFiles.length 0 j
            = projTarget df.allFiles rootId df.allFiles.length j from by
          unfold pmt; rw [if_pos (Nat.zero_le j)]]
        rfl

/-- Witness: the projection theorem at a three-file listing; file B
lands under file A, files A and C have no locally known parent and sit
under Orphans (A names none, C names an unknown id). -/
theorem populate_projection_witness :
    ∃ fm', (fmInit dfC7 false false false 60 0).populate = .val (.ok (), fm') ∧
      ∀ j, j < dfC7.allFiles.length →
        lookupA fm'.files (5 + j)
          = some (File.from_drive_file (5 + j) (dfC7.allFiles.getD j dfltDrive) false) ∧
        lookupA fm'.node_ids (5 + j) = some (3 + j) ∧
        nodeShape fm'.tree (3 + j)
          = some (5 + j, some (projTarget dfC7.allFiles "root0" dfC7.allFiles.length j)) :=
  populate_projection dfC7 false false 60 0 "root0" (fun j => j) rfl
    (by
      intro j hj
      have h3 : j < 3 := by simpa [dfC7] using hj
      interval_cases j <;> decide)
    (by
      intro j hj
      have h3 : j < 3 := by simpa [dfC7] using hj
      interval_cases j <;> decide)
    (by
      intro j1 j2 h1 h2
      have h31 : j1 < 3 := by simpa [dfC7] using h1
      have h32 : j2 < 3 := by simpa [dfC7] using h2
      interval_cases j1 <;> interval_cases j2 <;> decide)
    (by
      intro j i hj hi
      have h3j : j < 3 := by simpa [dfC7] using hj
      have h3i : i < 3 := by simpa [dfC7] using hi
      interval_cases j <;> interval_cases i <;> decide)

end GCSF
